import Mathlib

/-!
# beautifi: the generation pipeline

A shallow embedding of `internal/config/config.go`, `internal/generator/generator.go`
and `internal/api/gemini.go`, followed by theorems about prompt expansion,
prompt and filename synthesis, and the batch loop.

Modelling conventions.

* A Go `string` is a Lean `String`: the strings are taken to hold valid UTF-8,
  as text read from a YAML file does. Go's `len` is the byte length,
  `String.utf8ByteSize`.
* A Go `int` is an `Int`. The only arithmetic on it is the loop counter of
  `GeneratePrompts`, which stays between 1 and `variants + 1`; the increment could wrap only
  for `variants = 2^63 - 1`, where the slice would have to hold `2^63` elements.
* `unicode.ToLower`, the rune mapping behind `strings.ToLower`, is a parameter
  `lower : Char → Char`; theorems that need to know its value on ASCII say so.
* Effects (the remote call, the file system) are explicit state passing over an
  arbitrary state type; a run-time panic is `none`.
-/

set_option maxRecDepth 100000
set_option linter.dupNamespace false

namespace Beautifi

/-! ## internal/config -/

/-- Go `config.Project`. -/
structure Project where
  Project : String
  Tagline : String
  Themes : List String
  Styles : List String
  AspectRatio : String
  BasePrompt : String
  Extras : List (String × String)

/-- Go `config.StylePreset`. -/
structure StylePreset where
  Name : String
  Description : String
  Keywords : List String
deriving DecidableEq

/-- The entries of the map literal returned by `config.DefaultStyles`. -/
def defaultStyleEntries : List (String × StylePreset) :=
  [ ("flat-minimal",
      { Name := "flat-minimal", Description := "Clean flat design with minimal details",
        Keywords := ["flat design", "minimal", "clean lines", "no shadows", "solid colors"] }),
    ("gradient-glass",
      { Name := "gradient-glass", Description := "Modern glassmorphism with gradients",
        Keywords := ["gradient", "glassmorphism", "translucent", "modern", "soft shadows"] }),
    ("neon-glow",
      { Name := "neon-glow", Description := "Cyberpunk neon aesthetic",
        Keywords := ["neon", "glow", "cyberpunk", "dark background", "bright colors"] }),
    ("hand-drawn",
      { Name := "hand-drawn", Description := "Sketchy hand-drawn style",
        Keywords := ["hand-drawn", "sketch", "organic lines", "imperfect", "artistic"] }),
    ("3d-render",
      { Name := "3d-render", Description := "3D rendered with depth",
        Keywords := ["3D render", "depth", "realistic lighting", "shadows", "perspective"] }),
    ("retro-pixel",
      { Name := "retro-pixel", Description := "8-bit pixel art style",
        Keywords := ["pixel art", "8-bit", "retro", "limited palette", "nostalgic"] }),
    ("watercolor",
      { Name := "watercolor", Description := "Soft watercolor painting",
        Keywords := ["watercolor", "soft edges", "paint texture", "artistic", "flowing"] }),
    ("geometric",
      { Name := "geometric", Description := "Bold geometric shapes",
        Keywords := ["geometric", "shapes", "bold", "abstract", "mathematical"] }) ]

/-- A Go `map[string]config.StylePreset`, read through `preset, ok := presets[style]`. -/
abbrev Presets := String → Option StylePreset

/-- Go `config.DefaultStyles`. -/
def DefaultStyles : Presets := fun style => defaultStyleEntries.lookup style

/-! ## Library string functions -/

/-- Go `strings.ToLower` on valid UTF-8: `unicode.ToLower` applied to every rune. -/
def stringsToLower (lower : Char → Char) (s : String) : String :=
  ⟨s.data.map lower⟩

/-- Go `strings.ReplaceAll(s, old, new)` for a one-character `old` and `new`. -/
def replaceAll (s : String) (old new : Char) : String :=
  ⟨s.data.map (fun c => if c = old then new else c)⟩

/-- Go `strings.Join`. -/
def stringsJoin (elems : List String) (sep : String) : String :=
  sep.intercalate elems

/-- The verb `%d` of `fmt.Sprintf`: the decimal rendering of an `int`. -/
def formatInt : Int → String
  | Int.ofNat n => Nat.repr n
  | Int.negSucc n => "-" ++ Nat.repr (n + 1)

/-- Go `strings.Contains(s, sub)`, as a proposition. -/
def Contains (s sub : String) : Prop :=
  sub.data <:+: s.data

instance (s sub : String) : Decidable (Contains s sub) :=
  inferInstanceAs (Decidable (sub.data <:+: s.data))

/-! ## internal/generator: prompt expansion -/

/-- Go `generator.PromptSpec`. -/
structure PromptSpec where
  Theme : String
  Style : String
  Variant : Int
  Prompt : String
  Filename : String
deriving DecidableEq

/-- Go `buildPrompt`. `parts[2:]` cannot go out of range: `parts` holds at least
seven elements when it is sliced. -/
def buildPrompt (lower : Char → Char) (proj : Project) (theme style : String)
    (presets : Presets) : String :=
  let parts : List String := []
  let parts := parts ++ ["A professional logo icon for '" ++ proj.Project ++ "'"]
  let parts :=
    if proj.Tagline ≠ "" then
      parts ++ ["a " ++ stringsToLower lower proj.Tagline ++ " tool"]
    else parts
  let parts := parts ++ ["with a " ++ theme ++ " theme"]
  let parts :=
    match presets style with
    | some preset => parts ++ [stringsJoin preset.Keywords ", "]
    | none => parts ++ [style ++ " style"]
  let parts := parts ++ ["high quality", "suitable for app icon", "centered composition",
    "white or transparent background"]
  if proj.BasePrompt ≠ "" then
    proj.BasePrompt ++ ". " ++ stringsJoin (parts.drop 2) ", "
  else
    stringsJoin parts ", "

/-- Go `sanitizeName`. -/
def sanitizeName (lower : Char → Char) (s : String) : String :=
  let s := stringsToLower lower s
  let s := replaceAll s ' ' '-'
  let s := replaceAll s '_' '-'
  s

/-- Go `buildFilename`. -/
def buildFilename (lower : Char → Char) (theme style : String) (variant : Int) : String :=
  let theme := sanitizeName lower theme
  let style := sanitizeName lower style
  theme ++ "-" ++ style ++ "-" ++ formatInt variant ++ ".png"

/-- The loop `for v := start; v <= variants; v++ { s = body s v }`. -/
def forVariants {σ : Type} (variants : Int) (body : σ → Int → σ) (v : Int) (s : σ) : σ :=
  if v ≤ variants then forVariants variants body (v + 1) (body s v) else s
termination_by (variants + 1 - v).toNat
decreasing_by omega

/-- Go `GeneratePrompts`: three nested loops appending to `prompts`. -/
def GeneratePrompts (lower : Char → Char) (proj : Project) (styles : List String)
    (variants : Int) : List PromptSpec :=
  let stylePresets := DefaultStyles
  proj.Themes.foldl (fun prompts theme =>
    styles.foldl (fun prompts style =>
      forVariants variants (fun prompts v =>
        let prompt := buildPrompt lower proj theme style stylePresets
        let filename := buildFilename lower theme style v
        prompts ++ [{ Theme := theme, Style := style, Variant := v,
                      Prompt := prompt, Filename := filename }]) 1 prompts) prompts) []

/-! ## internal/api: the Gemini client -/

/-- A Go `[]byte`. -/
abbrev Bytes := List UInt8

/-- A `genai.Part`, reduced to the field `GenerateImage` reads: `InlineData` is `none` when
the pointer is nil and the `Data` of the blob otherwise. -/
structure Part where
  InlineData : Option Bytes
deriving DecidableEq

/-- A `genai.Content`, reduced to its `Parts`, a slice of pointers: `none` is a nil pointer. -/
structure Content where
  Parts : List (Option Part)
deriving DecidableEq

/-- A `genai.Candidate`, reduced to its `Content` pointer: `none` when it is nil. -/
structure Candidate where
  Content : Option Content
deriving DecidableEq

/-- What `c.client.Models.GenerateContent` hands back: an error, given by its message, or a
response, given by its `Candidates`, a slice of pointers: `none` is a nil pointer. -/
inductive ContentResult where
  | failed (err : String)
  | response (candidates : List (Option Candidate))

/-- The environment the batch runs in, over a state `σ` that the calls may change.
`generateContent` is `Models.GenerateContent` at the client's model, `writeFile` is
`os.WriteFile` with mode 0644 and returns the error message when the write fails, `join` is
`filepath.Join` and `marshalIndent` is `json.MarshalIndent` of the metadata object with the
keys prompt, theme, style and variant. -/
structure World (σ : Type) where
  generateContent : σ → String → ContentResult × σ
  writeFile : σ → String → Bytes → Option String × σ
  join : String → String → String
  marshalIndent : String → String → String → Int → Bytes

/-- The loop `for _, part := range ...Parts` in `GenerateImage`: `some (some data)` when it
returns the data of the first part that has inline data, `some none` when it ends without
one, and `none` when it reads `part.InlineData` through a nil `part` and panics. -/
def firstInlineData : List (Option Part) → Option (Option Bytes)
  | [] => some none
  | none :: _ => none
  | some part :: parts =>
    match part.InlineData with
    | some data => some (some data)
    | none => firstInlineData parts

/-- Go `(*GeminiClient).GenerateImage`: the image bytes or the message of the error, with the
state after the call; `none` when it panics on a nil pointer, which happens when
`Candidates[0]` is nil, when its `Content` is nil, or when the loop reaches a nil part. -/
def GenerateImage {σ : Type} (W : World σ) (st : σ) (prompt : String) :
    Option (Except String Bytes × σ) :=
  match W.generateContent st prompt with
  | (ContentResult.failed err, st) =>
    some (Except.error ("failed to generate content: " ++ err), st)
  | (ContentResult.response candidates, st) =>
    match candidates with
    | [] => some (Except.error "no candidates in response", st)
    | none :: _ => none
    | some candidate :: _ =>
      match candidate.Content with
      | none => none
      | some content =>
        match firstInlineData content.Parts with
        | none => none
        | some (some data) => some (Except.ok data, st)
        | some none => some (Except.error "no image data in response", st)

/-- The parts can be walked by the loop of `GenerateImage`: every part up to the first one
with inline data, or every part when none has any, is a non-nil pointer. -/
def partsReadable : List (Option Part) → Prop
  | [] => True
  | none :: _ => False
  | some part :: parts => part.InlineData ≠ none ∨ partsReadable parts

/-- The outcome of `GenerateContent` can be read by `GenerateImage` without a nil
dereference: it is an error, or a response without candidates, or a response whose first
candidate is non-nil and has a non-nil content with readable parts. -/
def Readable : ContentResult → Prop
  | ContentResult.failed _ => True
  | ContentResult.response [] => True
  | ContentResult.response (none :: _) => False
  | ContentResult.response (some candidate :: _) =>
    match candidate.Content with
    | none => False
    | some content => partsReadable content.Parts

/-! ## internal/generator: the batch loop -/

/-- Go `generator.GenerationResult`. -/
structure GenerationResult where
  Spec : PromptSpec
  Success : Bool
  Error : String
  FilePath : String
deriving DecidableEq

/-- The runes of `cs` that lie wholly within its first `n` bytes. -/
def takeBytes : Nat → List Char → List Char
  | _, [] => []
  | n, c :: cs => if c.utf8Size ≤ n then c :: takeBytes (n - c.utf8Size) cs else []

/-- Go `s[:n]`: a run-time panic (`none`) when `n` is negative or exceeds `len(s)`. Go cuts at
the byte offset; when the offset falls inside a rune the model keeps the runes before it. -/
def sliceTo (s : String) (n : Int) : Option String :=
  if n < 0 ∨ (s.utf8ByteSize : Int) < n then none
  else some ⟨takeBytes n.toNat s.data⟩

/-- The body of the loop of `GenerateImages` for one spec: `results` and the state after it,
or `none` when it panics, inside `GenerateImage` or at the slice of `outPath`. Printing under
`verbose` does not affect either and is left out. -/
def generateStep {σ : Type} (W : World σ) (outDir : String) (results : List GenerationResult)
    (st : σ) (spec : PromptSpec) : Option (List GenerationResult × σ) :=
  let result : GenerationResult := { Spec := spec, Success := false, Error := "", FilePath := "" }
  let outPath := W.join outDir spec.Filename
  match GenerateImage W st spec.Prompt with
  | none => none
  | some (Except.error err, st) =>
    let result := { result with Error := err }
    let result := { result with Success := false }
    some (results ++ [result], st)
  | some (Except.ok imageData, st) =>
    match W.writeFile st outPath imageData with
    | (some err, st) =>
      let result := { result with Error := "save failed: " ++ err }
      let result := { result with Success := false }
      some (results ++ [result], st)
    | (none, st) =>
      match sliceTo outPath ((outPath.utf8ByteSize : Int) - 4) with
      | none => none
      | some stem =>
        let metaPath := stem ++ ".json"
        let metaData := W.marshalIndent spec.Prompt spec.Theme spec.Style spec.Variant
        let st := (W.writeFile st metaPath metaData).2
        let result := { result with Success := true }
        let result := { result with FilePath := outPath }
        some (results ++ [result], st)

/-- The loop `for i, spec := range prompts` of `GenerateImages`. -/
def GenerateImagesLoop {σ : Type} (W : World σ) (outDir : String) :
    List PromptSpec → List GenerationResult → σ → Option (List GenerationResult × σ)
  | [], results, st => some (results, st)
  | spec :: prompts, results, st =>
    match generateStep W outDir results st spec with
    | none => none
    | some (results, st) => GenerateImagesLoop W outDir prompts results st

/-- Go `GenerateImages`: the returned pair `(results, err)` and the final state, or `none`
when the run panics. -/
def GenerateImages {σ : Type} (W : World σ) (st : σ) (prompts : List PromptSpec)
    (outDir : String) : Option ((List GenerationResult × Option String) × σ) :=
  match GenerateImagesLoop W outDir prompts [] st with
  | none => none
  | some (results, st) => some ((results, none), st)

/-- The generate call for `spec` succeeds from state `st` and the write of its image
succeeds in the state after it. -/
def ItemSucceeds {σ : Type} (W : World σ) (outDir : String) (st : σ) (spec : PromptSpec) :
    Prop :=
  ∃ data st1, GenerateImage W st spec.Prompt = some (Except.ok data, st1)
    ∧ (W.writeFile st1 (W.join outDir spec.Filename) data).1 = none

/-- A world without failures and without state: every call returns one candidate with one
image part, every write succeeds, and `join` is `filepath.Join` on a directory and a file name
that need no cleaning. -/
def calmWorld : World Unit :=
  { generateContent := fun st _ =>
      (ContentResult.response
        [some { Content := some { Parts := [some { InlineData := some [137, 80, 78, 71] }] } }],
       st)
    writeFile := fun st _ _ => (none, st)
    join := fun dir name => if dir = "" then name else dir ++ "/" ++ name
    marshalIndent := fun _ _ _ _ => [123, 125] }

/-- A world whose state counts the generate calls made so far: every third call fails, every
other call returns an image, every image write succeeds and every metadata write fails. -/
def everyThirdWorld : World Nat :=
  { generateContent := fun calls _ =>
      if (calls + 1) % 3 = 0 then (ContentResult.failed "quota exceeded", calls + 1)
      else (ContentResult.response
        [some { Content := some { Parts := [some { InlineData := none },
                                            some { InlineData := some [137, 80, 78, 71] }] } }],
        calls + 1)
    writeFile := fun calls _ data =>
      if data = [123, 125] then (some "disk full", calls) else (none, calls)
    join := fun dir name => if dir = "" then name else dir ++ "/" ++ name
    marshalIndent := fun _ _ _ _ => [123, 125] }

/-- A world whose backend answers every call with one candidate that has no content, as a
blocked generation does; every write succeeds. -/
def blockedWorld : World Unit :=
  { generateContent := fun st _ => (ContentResult.response [some { Content := none }], st)
    writeFile := fun st _ _ => (none, st)
    join := fun dir name => if dir = "" then name else dir ++ "/" ++ name
    marshalIndent := fun _ _ _ _ => [123, 125] }

/-- A spec whose file name has one byte; `GeneratePrompts` builds no such spec. -/
def shortNamePrompt : PromptSpec :=
  { Theme := "ocean", Style := "sketch", Variant := 1, Prompt := "a logo", Filename := "a" }

/-- Three specs as `GeneratePrompts` builds them, for the themes "ocean" and "forest". -/
def samplePrompts : List PromptSpec :=
  [ { Theme := "ocean", Style := "sketch", Variant := 1,
      Prompt := "Custom logo. sketch style", Filename := "ocean-sketch-1.png" },
    { Theme := "ocean", Style := "sketch", Variant := 2,
      Prompt := "Custom logo. sketch style", Filename := "ocean-sketch-2.png" },
    { Theme := "forest", Style := "sketch", Variant := 1,
      Prompt := "Custom logo. sketch style", Filename := "forest-sketch-1.png" } ]

/-- The result of the third sample prompt when its generate call fails on quota. -/
def sampleFailure : GenerationResult :=
  { Spec := { Theme := "forest", Style := "sketch", Variant := 1,
              Prompt := "Custom logo. sketch style", Filename := "forest-sketch-1.png" },
    Success := false, Error := "failed to generate content: quota exceeded", FilePath := "" }

/-- The results of the sample prompts when the first two items succeed and the third
generate call fails. -/
def sampleResults : List GenerationResult :=
  [ { Spec := { Theme := "ocean", Style := "sketch", Variant := 1,
                Prompt := "Custom logo. sketch style", Filename := "ocean-sketch-1.png" },
      Success := true, Error := "", FilePath := "out/ocean-sketch-1.png" },
    { Spec := { Theme := "ocean", Style := "sketch", Variant := 2,
                Prompt := "Custom logo. sketch style", Filename := "ocean-sketch-2.png" },
      Success := true, Error := "", FilePath := "out/ocean-sketch-2.png" },
    sampleFailure ]

/-- The values `v` takes in `for v := 1; v <= variants; v++`, in order. -/
def variantIndices (variants : Int) : List Int :=
  (List.range variants.toNat).map (fun (k : Nat) => (k : Int) + 1)

/-- The `PromptSpec` literal appended by the innermost loop body of `GeneratePrompts`. -/
def promptSpecFor (lower : Char → Char) (proj : Project) (theme style : String)
    (v : Int) : PromptSpec :=
  { Theme := theme, Style := style, Variant := v,
    Prompt := buildPrompt lower proj theme style DefaultStyles,
    Filename := buildFilename lower theme style v }

/-- The project of the end-to-end scenario: name "acme", one theme "ocean". -/
def acme : Project :=
  { Project := "acme", Tagline := "", Themes := ["ocean"], Styles := ["flat-minimal"],
    AspectRatio := "", BasePrompt := "", Extras := [] }

/-- The style segment in the specification's words: the matched preset's keyword list joined
by `", "`, or the literal style identifier suffixed with `" style"` when no preset matches. -/
def styleSegment (presets : Presets) (style : String) : String :=
  match presets style with
  | some preset => stringsJoin preset.Keywords ", "
  | none => style ++ " style"

/-- The name normalisation `N` in the specification's words: lower-case the argument, then
replace every space and every underscore with a hyphen. -/
def normalizeName (lower : Char → Char) (s : String) : String :=
  ⟨s.data.map (fun c => if lower c = ' ' ∨ lower c = '_' then '-' else lower c)⟩

/-- The fixed lead-in text of `buildPrompt`, up to the project name. -/
def leadInText : String := "A professional logo icon for"

/-! ## cmd/generate: the style filter -/

/-- A Go `map[string]bool`, read through `m[s]`: a missing key reads as `false`. -/
abbrev RequestMap := String → Bool

/-- Go `filterStyles`: the first loop fills `requestMap`, the second appends to `filtered`
the elements of `available` that `requestMap` holds. -/
def filterStyles (available requested : List String) : List String :=
  let requestMap : RequestMap := fun _ => false
  let requestMap := requested.foldl
    (fun (requestMap : RequestMap) s => fun key => if key = s then true else requestMap key)
    requestMap
  let filtered : List String := []
  available.foldl (fun filtered s => if requestMap s then filtered ++ [s] else filtered)
    filtered

/-- Go `strings.HasSuffix(s, suffix)`, as a proposition. -/
def HasSuffix (s suffix : String) : Prop :=
  suffix.data <:+ s.data

instance (s suffix : String) : Decidable (HasSuffix s suffix) :=
  inferInstanceAs (Decidable (suffix.data <:+ s.data))

/-! ## Loops as folds -/

theorem forVariants_eq_foldl {σ : Type} (variants : Int) (body : σ → Int → σ) :
    ∀ (n : Nat) (v : Int) (s : σ), (variants + 1 - v).toNat = n →
      forVariants variants body v s
        = ((List.range n).map (fun (k : Nat) => v + (k : Int))).foldl body s := by
  intro n
  induction n with
  | zero =>
    intro v s h
    rw [forVariants, if_neg (by omega)]
    rfl
  | succ n ih =>
    intro v s h
    rw [forVariants, if_pos (by omega), ih (v + 1) (body s v) (by omega),
      List.range_succ_eq_map]
    simp only [List.map_cons, List.foldl_cons, List.map_map]
    have h0 : v + ((0 : Nat) : Int) = v := by simp
    rw [h0]
    congr 1
    apply List.map_congr_left
    intro k _
    simp only [Function.comp, Nat.succ_eq_add_one]
    push_cast
    omega

theorem forVariants_one {σ : Type} (variants : Int) (body : σ → Int → σ) (s : σ) :
    forVariants variants body 1 s = (variantIndices variants).foldl body s := by
  rw [forVariants_eq_foldl variants body variants.toNat 1 s (by omega), variantIndices]
  congr 1
  apply List.map_congr_left
  intro k _
  omega

theorem foldl_append_flatMap {α β : Type} (g : α → List β) :
    ∀ (l : List α) (acc : List β),
      l.foldl (fun acc x => acc ++ g x) acc = acc ++ l.flatMap g := by
  intro l
  induction l with
  | nil => intro acc; simp
  | cons x xs ih => intro acc; simp [ih, List.append_assoc]

theorem foldl_append_singleton {α β : Type} (f : α → β) (l : List α) (acc : List β) :
    l.foldl (fun acc x => acc ++ [f x]) acc = acc ++ l.map f := by
  induction l generalizing acc with
  | nil => simp
  | cons x xs ih => simp [ih, List.append_assoc]

/-- The three nested loops of `GeneratePrompts` enumerate the cross product -/
theorem GeneratePrompts_eq_flatMap (lower : Char → Char) (proj : Project)
    (styles : List String) (variants : Int) :
    GeneratePrompts lower proj styles variants
      = proj.Themes.flatMap (fun theme => styles.flatMap (fun style =>
          (variantIndices variants).map (promptSpecFor lower proj theme style))) := by
  unfold GeneratePrompts
  simp only [forVariants_one]
  have h1 : ∀ (theme style : String) (acc : List PromptSpec),
      (variantIndices variants).foldl (fun prompts v =>
        prompts ++ [{ Theme := theme, Style := style, Variant := v,
                      Prompt := buildPrompt lower proj theme style DefaultStyles,
                      Filename := buildFilename lower theme style v }]) acc
      = acc ++ (variantIndices variants).map (promptSpecFor lower proj theme style) :=
    fun theme style acc =>
      foldl_append_singleton (promptSpecFor lower proj theme style) _ acc
  simp only [h1]
  simp only [foldl_append_flatMap]
  simp

/-! ## Blocks of equal length -/

theorem length_flatMap_uniform {α β : Type} (f : α → List β) (m : Nat)
    (hf : ∀ x, (f x).length = m) (l : List α) :
    (l.flatMap f).length = l.length * m := by
  induction l with
  | nil => simp
  | cons x xs ih =>
    simp only [List.flatMap_cons, List.length_append, List.length_cons, ih, hf]
    rw [Nat.succ_mul, Nat.add_comm]

theorem getElem?_flatMap_uniform {α β : Type} (f : α → List β) (m : Nat)
    (hf : ∀ x, (f x).length = m) :
    ∀ (l : List α) (i j : Nat), j < m →
      (l.flatMap f)[i * m + j]? = (l[i]?).bind (fun x => (f x)[j]?) := by
  intro l
  induction l with
  | nil => intro i j _; simp
  | cons x xs ih =>
    intro i j hj
    cases i with
    | zero =>
      simp only [List.flatMap_cons, Nat.zero_mul, Nat.zero_add, List.getElem?_cons_zero,
        Option.some_bind]
      exact List.getElem?_append_left (by rw [hf]; exact hj)
    | succ i =>
      have hle : (f x).length ≤ (i + 1) * m + j := by
        rw [hf, Nat.succ_mul]; omega
      have hsub : (i + 1) * m + j - (f x).length = i * m + j := by
        rw [hf, Nat.succ_mul]; omega
      simp only [List.flatMap_cons, List.getElem?_cons_succ]
      rw [List.getElem?_append_right hle, hsub]
      exact ih i j hj

theorem length_variantIndices (n : Int) : (variantIndices n).length = n.toNat := by
  simp [variantIndices]

theorem getElem?_variantIndices (n v : Int) (h1 : 1 ≤ v) (hn : v ≤ n) :
    (variantIndices n)[(v - 1).toNat]? = some v := by
  unfold variantIndices
  rw [List.getElem?_map, List.getElem?_range (by omega)]
  simp only [Option.map_some', Option.some.injEq]
  omega

theorem mem_variantIndices (n v : Int) (h : v ∈ variantIndices n) : 1 ≤ v ∧ v ≤ n := by
  unfold variantIndices at h
  rw [List.mem_map] at h
  obtain ⟨k, hk, rfl⟩ := h
  rw [List.mem_range] at hk
  omega

/-! ## Expansion: length and order -/

theorem length_styleBlock (lower : Char → Char) (proj : Project) (styles : List String)
    (n : Int) (theme : String) :
    (styles.flatMap (fun style =>
      (variantIndices n).map (promptSpecFor lower proj theme style))).length
      = styles.length * n.toNat :=
  length_flatMap_uniform _ _ (fun _ => by simp [length_variantIndices]) styles

theorem GeneratePrompts_length_toNat (lower : Char → Char) (proj : Project)
    (styles : List String) (n : Int) :
    (GeneratePrompts lower proj styles n).length
      = proj.Themes.length * styles.length * n.toNat := by
  rw [GeneratePrompts_eq_flatMap,
    length_flatMap_uniform _ _ (length_styleBlock lower proj styles n), Nat.mul_assoc]

theorem GeneratePrompts_variant_bounds (lower : Char → Char) (proj : Project)
    (styles : List String) (n : Int) (p : PromptSpec)
    (hp : p ∈ GeneratePrompts lower proj styles n) : 1 ≤ p.Variant ∧ p.Variant ≤ n := by
  rw [GeneratePrompts_eq_flatMap] at hp
  simp only [List.mem_flatMap, List.mem_map] at hp
  obtain ⟨theme, _, style, _, v, hv, rfl⟩ := hp
  exact mem_variantIndices n v hv

/-- C2: `GeneratePrompts(project, s, n)` has length `|project.Themes| * |s| * n` when `n` is
positive and is empty when `n ≤ 0`; every spec it produces has a variant index between 1
and `n`, so none has variant index 0. -/
theorem GeneratePrompts_length (lower : Char → Char) (proj : Project)
    (styles : List String) (n : Int) :
    (0 < n → ((GeneratePrompts lower proj styles n).length : Int)
        = (proj.Themes.length : Int) * (styles.length : Int) * n)
    ∧ (n ≤ 0 → GeneratePrompts lower proj styles n = [])
    ∧ (∀ p ∈ GeneratePrompts lower proj styles n, 1 ≤ p.Variant ∧ p.Variant ≤ n ∧ p.Variant ≠ 0) := by
  refine ⟨fun hn => ?_, fun hn => ?_, fun p hp => ?_⟩
  · rw [GeneratePrompts_length_toNat]
    push_cast
    rw [Int.toNat_of_nonneg (by omega)]
  · apply List.eq_nil_of_length_eq_zero
    rw [GeneratePrompts_length_toNat, Int.toNat_of_nonpos hn, Nat.mul_zero]
  · have h := GeneratePrompts_variant_bounds lower proj styles n p hp
    exact ⟨h.1, h.2, by omega⟩

/-- Witness for C2 at two themes, three styles and the counts 4 and -1 -/
theorem GeneratePrompts_length_witness :
    ((GeneratePrompts Char.toLower { acme with Themes := ["ocean", "forest"] }
        ["flat-minimal", "neon-glow", "sketch"] 4).length : Int) = 2 * 3 * 4
    ∧ GeneratePrompts Char.toLower { acme with Themes := ["ocean", "forest"] }
        ["flat-minimal", "neon-glow", "sketch"] (-1) = [] :=
  ⟨(GeneratePrompts_length Char.toLower { acme with Themes := ["ocean", "forest"] }
      ["flat-minimal", "neon-glow", "sketch"] 4).1 (by decide),
   (GeneratePrompts_length Char.toLower { acme with Themes := ["ocean", "forest"] }
      ["flat-minimal", "neon-glow", "sketch"] (-1)).2.1 (by decide)⟩

theorem GeneratePrompts_getElem_toNat (lower : Char → Char) (proj : Project)
    (styles : List String) (n : Int) (i j : Nat) (v : Int)
    (hi : i < proj.Themes.length) (hj : j < styles.length) (hv1 : 1 ≤ v) (hvn : v ≤ n) :
    (GeneratePrompts lower proj styles n)[(i * styles.length + j) * n.toNat + (v - 1).toNat]?
      = some (promptSpecFor lower proj proj.Themes[i] styles[j] v) := by
  have hk : (v - 1).toNat < n.toNat := by omega
  have hidx : (i * styles.length + j) * n.toNat + (v - 1).toNat
      = i * (styles.length * n.toNat) + (j * n.toNat + (v - 1).toNat) := by
    rw [Nat.add_mul, Nat.mul_assoc, Nat.add_assoc]
  have hinner : j * n.toNat + (v - 1).toNat < styles.length * n.toNat := by
    calc j * n.toNat + (v - 1).toNat < j * n.toNat + n.toNat := by omega
      _ = (j + 1) * n.toNat := by rw [Nat.succ_mul]
      _ ≤ styles.length * n.toNat := Nat.mul_le_mul_right _ hj
  rw [GeneratePrompts_eq_flatMap, hidx,
    getElem?_flatMap_uniform _ _ (length_styleBlock lower proj styles n) _ i _ hinner,
    List.getElem?_eq_getElem hi, Option.some_bind,
    getElem?_flatMap_uniform _ _ (fun _ => by simp [length_variantIndices]) _ j _ hk,
    List.getElem?_eq_getElem hj, Option.some_bind, List.getElem?_map,
    getElem?_variantIndices n v hv1 hvn]
  rfl

/-- C3: for positive `n`, `i < |themes|`, `j < |s|` and `v` in `1..n`, the element of
`GeneratePrompts(project, s, n)` at position `(i*|s| + j)*n + (v-1)` has theme `themes[i]`,
style `s[j]`, variant `v`, the prompt `buildPrompt(project, themes[i], s[j], catalog)` and the
filename `buildFilename(themes[i], s[j], v)`: themes are the outer loop, styles the middle
loop and variants the inner loop. -/
theorem GeneratePrompts_getElem (lower : Char → Char) (proj : Project)
    (styles : List String) (n : Int) (i j : Nat) (v : Int) (k : Nat)
    (hn : 0 < n) (hi : i < proj.Themes.length) (hj : j < styles.length)
    (hv1 : 1 ≤ v) (hvn : v ≤ n)
    (hk : (k : Int) = ((i : Int) * (styles.length : Int) + (j : Int)) * n + (v - 1)) :
    (GeneratePrompts lower proj styles n)[k]?
      = some { Theme := proj.Themes[i], Style := styles[j], Variant := v,
               Prompt := buildPrompt lower proj proj.Themes[i] styles[j] DefaultStyles,
               Filename := buildFilename lower proj.Themes[i] styles[j] v } := by
  have hk2 : k = (i * styles.length + j) * n.toNat + (v - 1).toNat := by
    apply Int.ofNat_inj.mp
    push_cast
    rw [Int.toNat_of_nonneg (by omega), Int.toNat_of_nonneg (by omega)]
    exact hk
  rw [hk2, GeneratePrompts_getElem_toNat lower proj styles n i j v hi hj hv1 hvn]
  rfl

/-- Witness for C3: the element for the second theme, third style, variant 2 of 4 -/
theorem GeneratePrompts_getElem_witness :
    (GeneratePrompts Char.toLower { acme with Themes := ["ocean", "forest"] }
        ["flat-minimal", "neon-glow", "sketch"] 4)[21]?
      = some { Theme := "forest", Style := "sketch", Variant := 2,
               Prompt := buildPrompt Char.toLower { acme with Themes := ["ocean", "forest"] }
                 "forest" "sketch" DefaultStyles,
               Filename := buildFilename Char.toLower "forest" "sketch" 2 } :=
  GeneratePrompts_getElem Char.toLower { acme with Themes := ["ocean", "forest"] }
    ["flat-minimal", "neon-glow", "sketch"] 4 1 2 2 21 (by decide) (by decide) (by decide)
    (by decide) (by decide) (by decide)

/-! ## Substrings -/

theorem contains_refl (s : String) : Contains s s :=
  List.infix_refl _

theorem contains_append_left {a sub : String} (b : String) (h : Contains a sub) :
    Contains (a ++ b) sub := by
  unfold Contains at *
  rw [String.data_append]
  exact h.trans (List.infix_append' [] a.data b.data)

theorem contains_append_right {b sub : String} (a : String) (h : Contains b sub) :
    Contains (a ++ b) sub := by
  unfold Contains at *
  rw [String.data_append]
  exact h.trans (List.suffix_append a.data b.data).isInfix

theorem contains_trans {a b c : String} (h1 : Contains a b) (h2 : Contains b c) :
    Contains a c :=
  List.IsInfix.trans h2 h1

theorem contains_intercalate_go (sep sub : String) :
    ∀ (l : List String) (acc : String),
      (Contains acc sub ∨ ∃ x ∈ l, Contains x sub) →
        Contains (String.intercalate.go acc sep l) sub := by
  intro l
  induction l with
  | nil =>
    intro acc h
    rcases h with h | ⟨x, hx, _⟩
    · exact h
    · simp at hx
  | cons a as ih =>
    intro acc h
    apply ih
    rcases h with h | ⟨x, hx, hsub⟩
    · exact Or.inl (contains_append_left _ (contains_append_left _ h))
    · rcases List.mem_cons.mp hx with rfl | hx
      · exact Or.inl (contains_append_right _ hsub)
      · exact Or.inr ⟨x, hx, hsub⟩

/-- A substring of an element is a substring of the joined string -/
theorem contains_stringsJoin {parts : List String} {x sub : String} (sep : String)
    (hx : x ∈ parts) (h : Contains x sub) : Contains (stringsJoin parts sep) sub := by
  unfold stringsJoin
  cases parts with
  | nil => simp at hx
  | cons a as =>
    apply contains_intercalate_go
    rcases List.mem_cons.mp hx with rfl | hx
    · exact Or.inl h
    · exact Or.inr ⟨x, hx, h⟩

/-! ## Prompt synthesis -/

/-- The four shapes `buildPrompt` can return, by presence of the base prompt and the tagline -/
theorem buildPrompt_cases (lower : Char → Char) (proj : Project) (theme style : String)
    (presets : Presets) :
    buildPrompt lower proj theme style presets =
      if proj.BasePrompt = "" then
        if proj.Tagline = "" then
          stringsJoin ["A professional logo icon for '" ++ proj.Project ++ "'",
            "with a " ++ theme ++ " theme", styleSegment presets style, "high quality",
            "suitable for app icon", "centered composition",
            "white or transparent background"] ", "
        else
          stringsJoin ["A professional logo icon for '" ++ proj.Project ++ "'",
            "a " ++ stringsToLower lower proj.Tagline ++ " tool",
            "with a " ++ theme ++ " theme", styleSegment presets style, "high quality",
            "suitable for app icon", "centered composition",
            "white or transparent background"] ", "
      else
        if proj.Tagline = "" then
          proj.BasePrompt ++ ". " ++ stringsJoin [styleSegment presets style, "high quality",
            "suitable for app icon", "centered composition",
            "white or transparent background"] ", "
        else
          proj.BasePrompt ++ ". " ++ stringsJoin ["with a " ++ theme ++ " theme",
            styleSegment presets style, "high quality", "suitable for app icon",
            "centered composition", "white or transparent background"] ", " := by
  unfold buildPrompt styleSegment
  cases presets style <;> by_cases hb : proj.BasePrompt = "" <;>
    by_cases ht : proj.Tagline = "" <;> simp [hb, ht]

theorem styleSegment_not_key {presets : Presets} {style : String}
    (h : presets style = none) : styleSegment presets style = style ++ " style" := by
  simp [styleSegment, h]

theorem buildPrompt_contains_styleSegment (lower : Char → Char) (proj : Project)
    (theme style : String) (presets : Presets) :
    Contains (buildPrompt lower proj theme style presets) (styleSegment presets style) := by
  rw [buildPrompt_cases]
  by_cases hb : proj.BasePrompt = "" <;> by_cases ht : proj.Tagline = ""
  · simp only [hb, ht, if_true]
    exact contains_stringsJoin _ (by simp) (contains_refl _)
  · simp only [hb, ht, if_true, if_false]
    exact contains_stringsJoin _ (by simp) (contains_refl _)
  · simp only [hb, ht, if_true, if_false]
    exact contains_append_right _ (contains_stringsJoin _ (by simp) (contains_refl _))
  · simp only [hb, ht, if_false]
    exact contains_append_right _ (contains_stringsJoin _ (by simp) (contains_refl _))

/-- C1 (failing input): with a base prompt and no tagline, `parts[2:]` starts at the style
segment, so the prompt for project "acme", base prompt "Custom logo", theme "ocean" and style
"flat-minimal" has no theme clause. -/
theorem buildPrompt_override_without_tagline (lower : Char → Char) :
    buildPrompt lower { acme with BasePrompt := "Custom logo" } "ocean" "flat-minimal"
        DefaultStyles
      = "Custom logo. flat design, minimal, clean lines, no shadows, solid colors, high quality, suitable for app icon, centered composition, white or transparent background"
    ∧ buildPrompt lower { acme with BasePrompt := "Custom logo" } "ocean" "flat-minimal"
        DefaultStyles
      ≠ "Custom logo" ++ ". " ++ stringsJoin ["with a " ++ "ocean" ++ " theme",
          "flat design, minimal, clean lines, no shadows, solid colors", "high quality",
          "suitable for app icon", "centered composition",
          "white or transparent background"] ", "
    ∧ ¬ Contains (buildPrompt lower { acme with BasePrompt := "Custom logo" } "ocean"
        "flat-minimal" DefaultStyles) "ocean" := by
  have h : buildPrompt lower { acme with BasePrompt := "Custom logo" } "ocean" "flat-minimal"
        DefaultStyles
      = "Custom logo. flat design, minimal, clean lines, no shadows, solid colors, high quality, suitable for app icon, centered composition, white or transparent background" := rfl
  rw [h]
  exact ⟨rfl, by decide, by decide⟩

/-- With a base prompt and a tagline the override keeps the theme clause: the result is
`basePrompt + ". "` followed by the theme clause, the style segment and the four keywords. -/
theorem buildPrompt_override_with_tagline (lower : Char → Char) (proj : Project)
    (theme style : String) (presets : Presets)
    (hb : proj.BasePrompt ≠ "") (ht : proj.Tagline ≠ "") :
    buildPrompt lower proj theme style presets
      = proj.BasePrompt ++ ". " ++ stringsJoin ["with a " ++ theme ++ " theme",
          styleSegment presets style, "high quality", "suitable for app icon",
          "centered composition", "white or transparent background"] ", " := by
  rw [buildPrompt_cases, if_neg hb, if_neg ht]

/-- C4: with an empty base prompt, `buildPrompt` is the `", "`-join of the lead-in naming the
project, the lower-cased tagline clause exactly when the tagline is non-empty, the theme
clause, the style segment (the preset's keywords joined by `", "` for a catalog key, otherwise
the identifier followed by `" style"`) and the four fixed keywords; for project "acme", theme
"ocean" and style "flat-minimal" the prompt contains "flat design". -/
theorem buildPrompt_without_basePrompt (lower : Char → Char) (proj : Project)
    (theme style : String) (presets : Presets) (hbase : proj.BasePrompt = "") :
    buildPrompt lower proj theme style presets
      = stringsJoin
          (["A professional logo icon for '" ++ proj.Project ++ "'"]
            ++ (if proj.Tagline ≠ "" then
                  ["a " ++ stringsToLower lower proj.Tagline ++ " tool"] else [])
            ++ ["with a " ++ theme ++ " theme",
                (match presets style with
                 | some preset => stringsJoin preset.Keywords ", "
                 | none => style ++ " style"),
                "high quality", "suitable for app icon", "centered composition",
                "white or transparent background"]) ", "
    ∧ (proj.Project = "acme" →
        Contains (buildPrompt lower proj "ocean" "flat-minimal" DefaultStyles) "flat design") := by
  constructor
  · rw [buildPrompt_cases, if_pos hbase]
    by_cases ht : proj.Tagline = ""
    · simp only [ht, if_true, ne_eq, not_true_eq_false, if_false]
      rfl
    · simp only [ht, if_false, ne_eq, not_false_eq_true, if_true]
      rfl
  · intro _
    exact contains_trans
      (buildPrompt_contains_styleSegment lower proj "ocean" "flat-minimal" DefaultStyles)
      (by decide)

/-- Witness for C4: project "acme" with the tagline "Fast Builds" -/
theorem buildPrompt_without_basePrompt_witness :
    buildPrompt Char.toLower { acme with Tagline := "Fast Builds" } "ocean" "flat-minimal"
        DefaultStyles
      = "A professional logo icon for 'acme', a fast builds tool, with a ocean theme, flat design, minimal, clean lines, no shadows, solid colors, high quality, suitable for app icon, centered composition, white or transparent background"
    ∧ Contains (buildPrompt Char.toLower { acme with Tagline := "Fast Builds" } "ocean"
        "flat-minimal" DefaultStyles) "flat design" :=
  ⟨((buildPrompt_without_basePrompt Char.toLower { acme with Tagline := "Fast Builds" }
      "ocean" "flat-minimal" DefaultStyles rfl).1).trans (by decide),
   (buildPrompt_without_basePrompt Char.toLower { acme with Tagline := "Fast Builds" }
      "ocean" "flat-minimal" DefaultStyles rfl).2 rfl⟩

/-- C9: for every project, with or without a base prompt or a tagline, every theme and
every style that is not a key of the preset catalog, the prompt contains the style identifier
immediately followed by `" style"`. -/
theorem buildPrompt_style_fallback (lower : Char → Char) (proj : Project)
    (theme style : String) (presets : Presets) (hkey : presets style = none) :
    Contains (buildPrompt lower proj theme style presets) (style ++ " style") := by
  have h := buildPrompt_contains_styleSegment lower proj theme style presets
  rwa [styleSegment_not_key hkey] at h

/-- Witness for C9: the style "sketch" is not in the default catalog -/
theorem buildPrompt_style_fallback_witness :
    DefaultStyles "sketch" = none
    ∧ Contains (buildPrompt Char.toLower { acme with BasePrompt := "Custom logo" } "ocean"
        "sketch" DefaultStyles) ("sketch" ++ " style") :=
  ⟨by decide, buildPrompt_style_fallback Char.toLower { acme with BasePrompt := "Custom logo" }
    "ocean" "sketch" DefaultStyles (by decide)⟩

/-! ## Filenames -/

theorem sanitizeName_eq_normalizeName (lower : Char → Char) (s : String) :
    sanitizeName lower s = normalizeName lower s := by
  simp only [sanitizeName, normalizeName, replaceAll, stringsToLower, List.map_map]
  congr 1
  apply List.map_congr_left
  intro c _
  simp only [Function.comp]
  by_cases h1 : lower c = ' '
  · simp [h1]
  · by_cases h2 : lower c = '_'
    · simp [h2]
    · simp [h1, h2]

theorem stringsToLower_ascii (lower : Char → Char)
    (hascii : ∀ c : Char, c.toNat < 128 → lower c = c.toLower) (s : String)
    (hs : ∀ c ∈ s.data, c.toNat < 128) :
    stringsToLower lower s = stringsToLower Char.toLower s := by
  unfold stringsToLower
  congr 1
  exact List.map_congr_left (fun c hc => hascii c (hs c hc))

theorem sanitizeName_ascii (lower : Char → Char)
    (hascii : ∀ c : Char, c.toNat < 128 → lower c = c.toLower) (s : String)
    (hs : ∀ c ∈ s.data, c.toNat < 128) :
    sanitizeName lower s = sanitizeName Char.toLower s := by
  unfold sanitizeName
  rw [stringsToLower_ascii lower hascii s hs]

theorem GeneratePrompts_acme (lower : Char → Char) :
    GeneratePrompts lower acme acme.Styles 1
      = [promptSpecFor lower acme "ocean" "flat-minimal" 1] := by
  rw [GeneratePrompts_eq_flatMap]
  rfl

/-- C8: `buildFilename(theme, style, variant)` is `N(theme) + "-" + N(style) + "-"` followed
by the decimal rendering of `variant` and `".png"`, where `N` lower-cases and replaces every
space and underscore with a hyphen; for "ocean", "flat-minimal", 1 it is
"ocean-flat-minimal-1.png", and `GeneratePrompts` on the project "acme" with theme "ocean",
style "flat-minimal" and one variant returns exactly one spec, with that filename. Here
`lower` agrees with `unicode.ToLower` on ASCII, where it maps `A-Z` to `a-z`. -/
theorem buildFilename_format (lower : Char → Char)
    (hascii : ∀ c : Char, c.toNat < 128 → lower c = c.toLower) :
    (∀ (theme style : String) (variant : Int),
      buildFilename lower theme style variant
        = normalizeName lower theme ++ "-" ++ normalizeName lower style ++ "-"
            ++ formatInt variant ++ ".png")
    ∧ buildFilename lower "ocean" "flat-minimal" 1 = "ocean-flat-minimal-1.png"
    ∧ (∃ spec, GeneratePrompts lower acme ["flat-minimal"] 1 = [spec]
        ∧ spec.Filename = "ocean-flat-minimal-1.png") := by
  have hfile : buildFilename lower "ocean" "flat-minimal" 1 = "ocean-flat-minimal-1.png" := by
    unfold buildFilename
    rw [sanitizeName_ascii lower hascii "ocean" (by decide),
      sanitizeName_ascii lower hascii "flat-minimal" (by decide)]
    decide
  refine ⟨fun theme style variant => ?_, hfile, ?_⟩
  · simp only [buildFilename, sanitizeName_eq_normalizeName]
  · exact ⟨_, GeneratePrompts_acme lower, hfile⟩

/-- Witness for C8 with the ASCII case mapping -/
theorem buildFilename_format_witness :
    buildFilename Char.toLower "Deep Sea" "hand_drawn" 12
      = normalizeName Char.toLower "Deep Sea" ++ "-" ++ normalizeName Char.toLower "hand_drawn"
          ++ "-" ++ formatInt 12 ++ ".png"
    ∧ buildFilename Char.toLower "Deep Sea" "hand_drawn" 12 = "deep-sea-hand-drawn-12.png" :=
  ⟨(buildFilename_format Char.toLower (fun _ _ => rfl)).1 "Deep Sea" "hand_drawn" 12,
   by decide⟩

/-! ## Occurrences across a concatenation -/

/-- An occurrence of `n` in `x ++ y` lies in `x`, lies in `y`, or straddles the seam -/
theorem infix_append_split {n x y : List Char} (h : n <:+: x ++ y) :
    n <:+: x ∨ n <:+: y ∨
      ∃ p q, p ≠ [] ∧ q ≠ [] ∧ n = p ++ q ∧ p <:+ x ∧ q <+: y := by
  obtain ⟨s, t, hst⟩ := h
  rcases List.append_eq_append_iff.mp hst with ⟨a, hx, ht⟩ | ⟨c, hsn, hy⟩
  · exact Or.inl ⟨s, a, hx.symm⟩
  · rcases List.append_eq_append_iff.mp hsn with ⟨a, hx, hn⟩ | ⟨d, hs, hc⟩
    · by_cases ha : a = []
      · subst ha
        refine Or.inr (Or.inl ⟨[], t, ?_⟩)
        rw [hy, hn]; simp
      · by_cases hc : c = []
        · subst hc
          refine Or.inl ⟨s, [], ?_⟩
          rw [hx, hn]; simp
        · exact Or.inr (Or.inr ⟨a, c, ha, hc, hn, ⟨s, hx.symm⟩, ⟨t, hy.symm⟩⟩)
    · refine Or.inr (Or.inl ⟨d, t, ?_⟩)
      rw [hy, hc]

/-- An occurrence of `n` cannot include a character that `n` does not have -/
theorem infix_append_cons_of_not_mem {n x y : List Char} {c : Char} (hc : c ∉ n)
    (h : n <:+: x ++ c :: y) : n <:+: x ∨ n <:+: y := by
  rcases infix_append_split h with h | h | ⟨p, q, _, hq, hn, _, hqy⟩
  · exact Or.inl h
  · rcases List.infix_cons_iff.mp h with h | h
    · rcases List.prefix_cons_iff.mp h with h | ⟨t, ht, _⟩
      · subst h; exact Or.inl List.nil_infix
      · exact absurd (by rw [ht]; simp) hc
    · exact Or.inr h
  · rcases List.prefix_cons_iff.mp hqy with h | ⟨t, ht, _⟩
    · exact absurd h hq
    · exact absurd (by rw [hn, ht]; simp) hc

/-- An occurrence of `n` in `pre ++ x ++ suf` lies in `x` when `n` occurs in neither `pre`
nor `suf` and cannot straddle either seam -/
theorem infix_of_infix_wrapped {n pre suf x : List Char}
    (hpre : ¬ n <:+: pre) (hsuf : ¬ n <:+: suf)
    (hp : ∀ p ∈ pre.tails, p ≠ [] → ¬ p <+: n)
    (hs : ∀ q ∈ suf.inits, q ≠ [] → ¬ q <:+ n)
    (h : n <:+: pre ++ (x ++ suf)) : n <:+: x := by
  rcases infix_append_split h with h | h | ⟨p, q, hp0, _, hn, hpp, _⟩
  · exact absurd h hpre
  · rcases infix_append_split h with h | h | ⟨p, q, _, hq0, hn, _, hqs⟩
    · exact h
    · exact absurd h hsuf
    · exact absurd ⟨p, hn.symm⟩ (hs q ((List.mem_inits _ _).mpr hqs) hq0)
  · exact absurd ⟨q, hn.symm⟩ (hp p ((List.mem_tails _ _).mpr hpp) hp0)

theorem data_intercalate_go (sep : String) :
    ∀ (l : List String) (acc : String),
      (String.intercalate.go acc sep l).data
        = acc.data ++ l.flatMap (fun x => sep.data ++ x.data) := by
  intro l
  induction l with
  | nil => intro acc; simp [String.intercalate.go]
  | cons a as ih =>
    intro acc
    simp [String.intercalate.go, ih, String.data_append, List.append_assoc]

/-- An occurrence of `n` in `x` followed by `", "`-prefixed parts lies in `x` or, after the
comma, in one part with its leading space, when `n` has no comma -/
theorem infix_comma_chunks {n : List Char} (hc : ',' ∉ n) :
    ∀ (parts : List String) (x : List Char),
      n <:+: x ++ parts.flatMap (fun y => ", ".data ++ y.data) →
        n <:+: x ∨ ∃ y ∈ parts, n <:+: ' ' :: y.data := by
  intro parts
  induction parts with
  | nil => intro x h; simpa using h
  | cons a as ih =>
    intro x h
    have h2 : n <:+: x ++ ',' :: ((' ' :: a.data) ++ as.flatMap (fun y => ", ".data ++ y.data)) := by
      simpa [List.append_assoc] using h
    rcases infix_append_cons_of_not_mem hc h2 with h | h
    · exact Or.inl h
    · rcases ih _ h with h | ⟨y, hy, h⟩
      · exact Or.inr ⟨a, by simp, h⟩
      · exact Or.inr ⟨y, by simp [hy], h⟩

/-! ## The lead-in under an override -/

theorem infix_override_shape {n : List Char} (hdot : '.' ∉ n) (hcomma : ',' ∉ n)
    (base a : String) (as : List String)
    (h : n <:+: (base ++ ". " ++ stringsJoin (a :: as) ", ").data) :
    n <:+: base.data ∨ ∃ y ∈ a :: as, n <:+: ' ' :: y.data := by
  have hd : (base ++ ". " ++ stringsJoin (a :: as) ", ").data
      = base.data ++ '.' :: ((' ' :: a.data) ++ as.flatMap (fun y => ", ".data ++ y.data)) := by
    simp [stringsJoin, String.intercalate, data_intercalate_go, String.data_append]
  rw [hd] at h
  rcases infix_append_cons_of_not_mem hdot h with h | h
  · exact Or.inl h
  · rcases infix_comma_chunks hcomma as _ h with h | ⟨y, hy, h⟩
    · exact Or.inr ⟨a, by simp, h⟩
    · exact Or.inr ⟨y, by simp [hy], h⟩

theorem leadIn_not_in_themeClause (theme : String) (h : ¬ Contains theme leadInText) :
    ¬ leadInText.data <:+: ' ' :: ("with a " ++ theme ++ " theme").data := by
  intro hc
  apply h
  have hd : ' ' :: ("with a " ++ theme ++ " theme").data
      = " with a ".data ++ (theme.data ++ " theme".data) := by
    simp [String.data_append]
  rw [hd] at hc
  exact infix_of_infix_wrapped (by decide) (by decide) (by decide) (by decide) hc

theorem leadIn_not_in_fallback (style : String) (h : ¬ Contains style leadInText) :
    ¬ leadInText.data <:+: ' ' :: (style ++ " style").data := by
  intro hc
  apply h
  have hd : ' ' :: (style ++ " style").data = " ".data ++ (style.data ++ " style".data) := by
    simp [String.data_append]
  rw [hd] at hc
  exact infix_of_infix_wrapped (by decide) (by decide) (by decide) (by decide) hc

theorem lookup_mem {α : Type} (k : String) (v : α) :
    ∀ (l : List (String × α)), l.lookup k = some v → v ∈ l.map Prod.snd := by
  intro l
  induction l with
  | nil => intro h; simp at h
  | cons e es ih =>
    intro h
    obtain ⟨k2, v2⟩ := e
    rw [List.lookup_cons] at h
    by_cases hk : (k == k2) = true
    · simp only [hk] at h
      simp only [Option.some.injEq] at h
      subst h
      simp
    · simp only [hk] at h
      simp only [List.map_cons, List.mem_cons]
      exact Or.inr (ih h)

theorem leadIn_not_in_catalog :
    ∀ preset ∈ defaultStyleEntries.map Prod.snd,
      ¬ leadInText.data <:+: ' ' :: (stringsJoin preset.Keywords ", ").data := by
  decide

theorem leadIn_not_in_styleSegment (style : String) (h : ¬ Contains style leadInText) :
    ¬ leadInText.data <:+: ' ' :: (styleSegment DefaultStyles style).data := by
  unfold styleSegment
  cases hps : DefaultStyles style with
  | none => exact leadIn_not_in_fallback style h
  | some preset =>
    exact leadIn_not_in_catalog preset (lookup_mem style preset defaultStyleEntries hps)

/-- C10 (counterexample): a base prompt is copied into the prompt as it is, so a base
prompt that holds the lead-in text yields a prompt that contains it. -/
theorem buildPrompt_override_leadIn_counterexample :
    ({ acme with BasePrompt := "A professional logo icon for cats" } : Project).BasePrompt ≠ ""
    ∧ Contains (buildPrompt Char.toLower
        { acme with BasePrompt := "A professional logo icon for cats" } "ocean" "flat-minimal"
        DefaultStyles) "A professional logo icon for" := by
  decide

/-- C10 (amended): for every project whose base prompt is non-empty, if the lead-in text
"A professional logo icon for" occurs in none of the base prompt, the theme and the style
identifier, then the prompt built with the default catalog does not contain it. -/
theorem buildPrompt_override_no_leadIn (lower : Char → Char) (proj : Project)
    (theme style : String) (hbase : proj.BasePrompt ≠ "")
    (hb : ¬ Contains proj.BasePrompt "A professional logo icon for")
    (ht : ¬ Contains theme "A professional logo icon for")
    (hs : ¬ Contains style "A professional logo icon for") :
    ¬ Contains (buildPrompt lower proj theme style DefaultStyles)
        "A professional logo icon for" := by
  intro hc
  have hseg := leadIn_not_in_styleSegment style hs
  have hthm := leadIn_not_in_themeClause theme ht
  have hq1 : ¬ leadInText.data <:+: ' ' :: "high quality".data := by decide
  have hq2 : ¬ leadInText.data <:+: ' ' :: "suitable for app icon".data := by decide
  have hq3 : ¬ leadInText.data <:+: ' ' :: "centered composition".data := by decide
  have hq4 : ¬ leadInText.data <:+: ' ' :: "white or transparent background".data := by decide
  unfold Contains at hc
  rw [buildPrompt_cases, if_neg hbase] at hc
  by_cases htag : proj.Tagline = ""
  · rw [if_pos htag] at hc
    rcases infix_override_shape (by decide) (by decide) _ _ _ hc with h | ⟨y, hy, h⟩
    · exact hb h
    · simp only [List.mem_cons, List.mem_singleton, List.not_mem_nil, or_false] at hy
      rcases hy with rfl | rfl | rfl | rfl | rfl
      · exact hseg h
      · exact hq1 h
      · exact hq2 h
      · exact hq3 h
      · exact hq4 h
  · rw [if_neg htag] at hc
    rcases infix_override_shape (by decide) (by decide) _ _ _ hc with h | ⟨y, hy, h⟩
    · exact hb h
    · simp only [List.mem_cons, List.mem_singleton, List.not_mem_nil, or_false] at hy
      rcases hy with rfl | rfl | rfl | rfl | rfl | rfl
      · exact hthm h
      · exact hseg h
      · exact hq1 h
      · exact hq2 h
      · exact hq3 h
      · exact hq4 h

/-- Witness for C10 (amended): base prompt "Custom logo", tagline "Fast Builds" -/
theorem buildPrompt_override_no_leadIn_witness :
    ¬ Contains (buildPrompt Char.toLower
        { acme with BasePrompt := "Custom logo", Tagline := "Fast Builds" } "ocean" "sketch"
        DefaultStyles) "A professional logo icon for" :=
  buildPrompt_override_no_leadIn Char.toLower
    { acme with BasePrompt := "Custom logo", Tagline := "Fast Builds" } "ocean" "sketch"
    (by decide) (by decide) (by decide) (by decide)

/-! ## The batch loop -/

theorem append_ne_empty_of_left {a : String} (b : String) (h : a ≠ "") : a ++ b ≠ "" := by
  intro hc
  apply h
  have hd : a.data ++ b.data = [] := by
    rw [← String.data_append, hc]
  exact String.ext (List.append_eq_nil.mp hd).1

/-- Every error `GenerateImage` returns carries a non-empty message -/
theorem GenerateImage_error_ne_empty {σ : Type} (W : World σ) (st st1 : σ)
    (prompt err : String) (h : GenerateImage W st prompt = some (Except.error err, st1)) :
    err ≠ "" := by
  unfold GenerateImage at h
  rcases hgc : W.generateContent st prompt with ⟨reply, st2⟩
  rw [hgc] at h
  cases reply with
  | failed msg =>
    simp only [Option.some.injEq, Prod.mk.injEq, Except.error.injEq] at h
    rw [← h.1]
    exact append_ne_empty_of_left _ (by decide)
  | response candidates =>
    cases candidates with
    | nil =>
      simp only [Option.some.injEq, Prod.mk.injEq, Except.error.injEq] at h
      rw [← h.1]
      decide
    | cons candidate rest =>
      cases candidate with
      | none => simp at h
      | some candidate =>
        simp only at h
        cases hc : candidate.Content with
        | none => rw [hc] at h; simp at h
        | some content =>
          rw [hc] at h
          simp only at h
          cases hf : firstInlineData content.Parts with
          | none => rw [hf] at h; simp at h
          | some found =>
            rw [hf] at h
            cases found with
            | some data => simp at h
            | none =>
              simp only [Option.some.injEq, Prod.mk.injEq, Except.error.injEq] at h
              rw [← h.1]
              decide

theorem firstInlineData_isSome :
    ∀ parts : List (Option Part), partsReadable parts →
      ∃ found, firstInlineData parts = some found := by
  intro parts
  induction parts with
  | nil => intro _; exact ⟨none, rfl⟩
  | cons part rest ih =>
    intro h
    cases part with
    | none => exact absurd h (by simp [partsReadable])
    | some part =>
      simp only [firstInlineData]
      cases hd : part.InlineData with
      | some data => exact ⟨some data, rfl⟩
      | none =>
        simp only [partsReadable, hd, ne_eq, not_true_eq_false, false_or] at h
        exact ih h

/-- A readable outcome of the backend is one `GenerateImage` returns from -/
theorem GenerateImage_isSome {σ : Type} (W : World σ) (st : σ) (prompt : String)
    (h : Readable (W.generateContent st prompt).1) :
    ∃ out, GenerateImage W st prompt = some out := by
  unfold GenerateImage
  rcases hgc : W.generateContent st prompt with ⟨reply, st2⟩
  rw [hgc] at h
  cases reply with
  | failed msg => exact ⟨_, rfl⟩
  | response candidates =>
    cases candidates with
    | nil => exact ⟨_, rfl⟩
    | cons candidate rest =>
      cases candidate with
      | none => exact absurd h (by simp [Readable])
      | some candidate =>
        simp only [Readable] at h
        simp only
        cases hc : candidate.Content with
        | none => rw [hc] at h; exact absurd h (by simp)
        | some content =>
          rw [hc] at h
          simp only at h
          obtain ⟨found, hf⟩ := firstInlineData_isSome content.Parts h
          simp only [hf]
          cases found with
          | some data => exact ⟨_, rfl⟩
          | none => exact ⟨_, rfl⟩

theorem utf8ByteSize_pos_ne_empty (s : String) (h : 0 < s.utf8ByteSize) : s ≠ "" := by
  intro hc
  rw [hc] at h
  exact absurd h (by decide)

theorem sliceTo_isSome (s : String) (h : 4 ≤ s.utf8ByteSize) :
    ∃ stem, sliceTo s ((s.utf8ByteSize : Int) - 4) = some stem := by
  unfold sliceTo
  rw [if_neg (by omega)]
  exact ⟨_, rfl⟩

theorem sliceTo_eq_some (s stem : String)
    (h : sliceTo s ((s.utf8ByteSize : Int) - 4) = some stem) : 4 ≤ s.utf8ByteSize := by
  unfold sliceTo at h
  split at h
  · simp at h
  · omega

/-- What one pass of the loop body appends when it does not panic -/
theorem generateStep_some {σ : Type} (W : World σ) (outDir : String)
    (results results2 : List GenerationResult) (st st2 : σ) (spec : PromptSpec)
    (h : generateStep W outDir results st spec = some (results2, st2)) :
    ∃ r, results2 = results ++ [r] ∧ r.Spec = spec
      ∧ (r.Success = true ↔ ItemSucceeds W outDir st spec)
      ∧ (r.Error ≠ "" ↔ r.Success = false)
      ∧ (r.FilePath ≠ "" ↔ r.Success = true) := by
  unfold generateStep at h
  simp only at h
  cases hg : GenerateImage W st spec.Prompt with
  | none => rw [hg] at h; simp at h
  | some out =>
  obtain ⟨res, st1⟩ := out
  rw [hg] at h
  cases res with
  | error err =>
    simp only [Option.some.injEq, Prod.mk.injEq] at h
    refine ⟨_, h.1.symm, rfl, ?_, ?_, ?_⟩
    · simp only [Bool.false_eq_true, false_iff]
      rintro ⟨data, s1, hd, _⟩
      rw [hg] at hd
      simp at hd
    · simpa using GenerateImage_error_ne_empty W st st1 spec.Prompt err hg
    · simp
  | ok data =>
    simp only at h
    rcases hw : W.writeFile st1 (W.join outDir spec.Filename) data with ⟨werr, st3⟩
    rw [hw] at h
    cases werr with
    | some err =>
      simp only [Option.some.injEq, Prod.mk.injEq] at h
      refine ⟨_, h.1.symm, rfl, ?_, ?_, ?_⟩
      · simp only [Bool.false_eq_true, false_iff]
        rintro ⟨data2, s1, hd, hwr⟩
        rw [hg] at hd
        simp only [Option.some.injEq, Prod.mk.injEq, Except.ok.injEq] at hd
        rw [← hd.1, ← hd.2, hw] at hwr
        simp at hwr
      · simpa using append_ne_empty_of_left err (by decide : "save failed: " ≠ "")
      · simp
    | none =>
      simp only at h
      cases hs : sliceTo (W.join outDir spec.Filename)
          (((W.join outDir spec.Filename).utf8ByteSize : Int) - 4) with
      | none => rw [hs] at h; simp at h
      | some stem =>
        rw [hs] at h
        simp only [Option.some.injEq, Prod.mk.injEq] at h
        have hlen := sliceTo_eq_some _ _ hs
        refine ⟨_, h.1.symm, rfl, ?_, ?_, ?_⟩
        · simp only [true_iff]
          exact ⟨data, st1, hg, by rw [hw]⟩
        · simp
        · simpa using utf8ByteSize_pos_ne_empty _ (by omega)

/-- The loop body does not panic when the outcome of the backend is readable and the image
path has at least four bytes -/
theorem generateStep_isSome {σ : Type} (W : World σ) (outDir : String)
    (results : List GenerationResult) (st : σ) (spec : PromptSpec)
    (hread : Readable (W.generateContent st spec.Prompt).1)
    (hlen : 4 ≤ (W.join outDir spec.Filename).utf8ByteSize) :
    ∃ results2 st2, generateStep W outDir results st spec = some (results2, st2) := by
  obtain ⟨out, hg⟩ := GenerateImage_isSome W st spec.Prompt hread
  obtain ⟨res, st1⟩ := out
  unfold generateStep
  simp only [hg]
  cases res with
  | error err => exact ⟨_, _, rfl⟩
  | ok data =>
    simp only
    rcases W.writeFile st1 (W.join outDir spec.Filename) data with ⟨werr, st3⟩
    cases werr with
    | some err => exact ⟨_, _, rfl⟩
    | none =>
      simp only
      obtain ⟨stem, hs⟩ := sliceTo_isSome _ hlen
      rw [hs]
      exact ⟨_, _, rfl⟩

theorem GenerateImagesLoop_append {σ : Type} (W : World σ) (outDir : String) :
    ∀ (ps qs : List PromptSpec) (results : List GenerationResult) (st : σ),
      GenerateImagesLoop W outDir (ps ++ qs) results st
        = (GenerateImagesLoop W outDir ps results st).bind
            (fun out => GenerateImagesLoop W outDir qs out.1 out.2) := by
  intro ps
  induction ps with
  | nil => intro qs results st; simp [GenerateImagesLoop]
  | cons p ps ih =>
    intro qs results st
    simp only [List.cons_append, GenerateImagesLoop]
    cases generateStep W outDir results st p with
    | none => simp
    | some out => exact ih qs out.1 out.2

theorem GenerateImagesLoop_results {σ : Type} (W : World σ) (outDir : String) :
    ∀ (ps : List PromptSpec) (results results2 : List GenerationResult) (st st2 : σ),
      GenerateImagesLoop W outDir ps results st = some (results2, st2) →
        ∃ rs, results2 = results ++ rs ∧ rs.length = ps.length := by
  intro ps
  induction ps with
  | nil =>
    intro results results2 st st2 h
    simp only [GenerateImagesLoop, Option.some.injEq, Prod.mk.injEq] at h
    exact ⟨[], by simp [h.1], rfl⟩
  | cons p ps ih =>
    intro results results2 st st2 h
    simp only [GenerateImagesLoop] at h
    cases hstep : generateStep W outDir results st p with
    | none => rw [hstep] at h; simp at h
    | some out =>
      obtain ⟨results1, st1⟩ := out
      rw [hstep] at h
      obtain ⟨r, hr, _⟩ := generateStep_some W outDir results results1 st st1 p hstep
      obtain ⟨rs, hrs, hlen⟩ := ih results1 results2 st1 st2 h
      refine ⟨r :: rs, ?_, by simp [hlen]⟩
      rw [hrs, hr]
      simp

theorem GenerateImagesLoop_isSome {σ : Type} (W : World σ) (outDir : String) :
    ∀ (ps : List PromptSpec) (results : List GenerationResult) (st : σ),
      (∀ (s : σ) (prompt : String), Readable (W.generateContent s prompt).1) →
      (∀ p ∈ ps, 4 ≤ (W.join outDir p.Filename).utf8ByteSize) →
        ∃ results2 st2, GenerateImagesLoop W outDir ps results st = some (results2, st2) := by
  intro ps
  induction ps with
  | nil => intro results st _ _; exact ⟨_, _, rfl⟩
  | cons p ps ih =>
    intro results st hread hlen
    obtain ⟨results1, st1, hstep⟩ :=
      generateStep_isSome W outDir results st p (hread st p.Prompt) (hlen p (by simp))
    simp only [GenerateImagesLoop, hstep]
    exact ih results1 st1 hread (fun q hq => hlen q (by simp [hq]))

/-- The result at index `i` of a run that returns is what the loop body appends for
`prompts[i]` in the state the first `i` items leave behind -/
theorem GenerateImagesLoop_item {σ : Type} (W : World σ) (outDir : String)
    (ps : List PromptSpec) (results : List GenerationResult) (st st2 : σ)
    (h : GenerateImagesLoop W outDir ps [] st = some (results, st2))
    (i : Nat) (hi : i < ps.length) :
    ∃ rs sti r, GenerateImagesLoop W outDir (ps.take i) [] st = some (rs, sti)
      ∧ results[i]? = some r ∧ r.Spec = ps[i]
      ∧ (r.Success = true ↔ ItemSucceeds W outDir sti ps[i])
      ∧ (r.Error ≠ "" ↔ r.Success = false)
      ∧ (r.FilePath ≠ "" ↔ r.Success = true) := by
  have hsplit : ps = ps.take i ++ (ps[i] :: ps.drop (i + 1)) := by
    rw [← List.drop_eq_getElem_cons hi, List.take_append_drop]
  rw [hsplit, GenerateImagesLoop_append] at h
  cases hpre : GenerateImagesLoop W outDir (ps.take i) [] st with
  | none => rw [hpre] at h; simp at h
  | some out =>
    obtain ⟨rs, sti⟩ := out
    rw [hpre] at h
    simp only [Option.some_bind, GenerateImagesLoop] at h
    cases hstep : generateStep W outDir rs sti ps[i] with
    | none => rw [hstep] at h; simp at h
    | some out1 =>
      obtain ⟨rs1, st1⟩ := out1
      rw [hstep] at h
      simp only at h
      obtain ⟨r, hr, hspec, hsucc, herr, hpath⟩ :=
        generateStep_some W outDir rs rs1 sti st1 ps[i] hstep
      obtain ⟨rest, hrest, _⟩ := GenerateImagesLoop_results W outDir _ rs1 results st1 st2 h
      obtain ⟨rs0, hrs0, hlen0⟩ := GenerateImagesLoop_results W outDir _ [] rs st sti hpre
      have hrslen : rs.length = i := by
        rw [hrs0, List.nil_append, hlen0, List.length_take]
        omega
      refine ⟨rs, sti, r, rfl, ?_, hspec, hsucc, herr, hpath⟩
      rw [hrest, hr, List.append_assoc, List.getElem?_append_right (by omega), hrslen]
      simp

theorem GenerateImages_eq_some {σ : Type} (W : World σ) (st st2 : σ)
    (prompts : List PromptSpec) (outDir : String) (results : List GenerationResult)
    (err : Option String)
    (h : GenerateImages W st prompts outDir = some ((results, err), st2)) :
    GenerateImagesLoop W outDir prompts [] st = some (results, st2) ∧ err = none := by
  unfold GenerateImages at h
  split at h
  · simp at h
  · rename_i rs s hloop
    simp only [Option.some.injEq, Prod.mk.injEq] at h
    rw [hloop, ← h.1.1, ← h.2]
    exact ⟨rfl, h.1.2.symm⟩

theorem utf8ByteSize_append (a b : String) :
    (a ++ b).utf8ByteSize = a.utf8ByteSize + b.utf8ByteSize := by
  have h : a ++ b = ⟨a.data ++ b.data⟩ := String.ext (String.data_append a b)
  rw [h, String.utf8ByteSize_mk, String.utf8Len_append]
  rfl

/-- The image path in `everyThirdWorld` under the directory "out" has at least four bytes -/
theorem everyThirdWorld_join_size (name : String) :
    4 ≤ (everyThirdWorld.join "out" name).utf8ByteSize := by
  have h : everyThirdWorld.join "out" name = "out" ++ "/" ++ name := rfl
  rw [h, utf8ByteSize_append]
  have h4 : ("out" ++ "/").utf8ByteSize = 4 := by decide
  omega

theorem everyThirdWorld_step (results : List GenerationResult) (calls : Nat)
    (spec : PromptSpec) :
    ∃ r, generateStep everyThirdWorld "out" results calls spec
        = some (results ++ [r], calls + 1)
      ∧ r.Success = decide ((calls + 1) % 3 ≠ 0) := by
  obtain ⟨stem, hs⟩ := sliceTo_isSome _ (everyThirdWorld_join_size spec.Filename)
  by_cases hc : (calls + 1) % 3 = 0
  · refine ⟨GenerationResult.mk spec false
      ("failed to generate content: " ++ "quota exceeded") "", ?_, ?_⟩
    · simp only [generateStep, GenerateImage, everyThirdWorld, hc, if_true]
    · simp [hc]
  · refine ⟨GenerationResult.mk spec true "" ("out" ++ "/" ++ spec.Filename), ?_, ?_⟩
    · simp only [generateStep, GenerateImage, everyThirdWorld, hc, if_false, firstInlineData]
      simp only [everyThirdWorld] at hs
      rw [if_neg (by decide), hs]
      simp
    · simp [hc]

theorem everyThirdWorld_loop :
    ∀ (ps : List PromptSpec) (results : List GenerationResult) (calls : Nat),
      ∃ rs, GenerateImagesLoop everyThirdWorld "out" ps results calls
          = some (results ++ rs, calls + ps.length)
        ∧ rs.length = ps.length
        ∧ ∀ i, i < ps.length →
            (rs[i]?).map (fun r => r.Success) = some (decide ((calls + i + 1) % 3 ≠ 0)) := by
  intro ps
  induction ps with
  | nil =>
    intro results calls
    exact ⟨[], by simp [GenerateImagesLoop], rfl, fun i hi => absurd hi (by simp)⟩
  | cons p ps ih =>
    intro results calls
    obtain ⟨r, hstep, hr⟩ := everyThirdWorld_step results calls p
    obtain ⟨rs, hloop, hlen, hrs⟩ := ih (results ++ [r]) (calls + 1)
    refine ⟨r :: rs, ?_, by simp [hlen], ?_⟩
    · simp only [GenerateImagesLoop, hstep, hloop, List.length_cons]
      simp [Nat.add_comm, Nat.add_left_comm]
    · intro i hi
      cases i with
      | zero => simp [hr]
      | succ i =>
        have h := hrs i (by simpa using hi)
        simp only [List.getElem?_cons_succ]
        rw [h]
        congr 3
        omega

theorem calmWorld_readable (st : Unit) (prompt : String) :
    Readable (calmWorld.generateContent st prompt).1 := by
  simp [calmWorld, Readable, partsReadable]

theorem everyThirdWorld_readable (calls : Nat) (prompt : String) :
    Readable (everyThirdWorld.generateContent calls prompt).1 := by
  by_cases hc : (calls + 1) % 3 = 0
  · simp [everyThirdWorld, hc, Readable]
  · simp [everyThirdWorld, hc, Readable, partsReadable]

/-- C5 (counterexample): with an empty output directory and the one-byte file name "a" the
generate call and the image write of the only item both succeed, yet the run panics at
`outPath[:len(outPath)-4]` and returns no result, so no result has `Success = true`. -/
theorem GenerateImages_success_iff_counterexample :
    ItemSucceeds calmWorld "" () shortNamePrompt
    ∧ GenerateImages calmWorld () [shortNamePrompt] "" = none :=
  ⟨⟨[137, 80, 78, 71], (), rfl, rfl⟩, by decide⟩

/-- C5 (amended): whenever `GenerateImages` returns, the result at index `i` has
`Success = true` exactly when the generate call for `prompts[i].Prompt` succeeds, in the state
the first `i` items leave behind, and the write of that item's image succeeds; no other
outcome enters, in particular not that of the metadata write. It returns, with one result
per prompt, whenever every outcome of the backend is readable without a nil dereference and
every image path has at least four bytes. With a backend that fails on every third call and
metadata writes that always fail, the failures are exactly the items 3, 6, 9, ... and every
other item succeeds. -/
theorem GenerateImages_success_iff :
    (∀ (σ : Type) (W : World σ) (st : σ) (prompts : List PromptSpec) (outDir : String),
        (∀ (s : σ) (prompt : String), Readable (W.generateContent s prompt).1) →
        (∀ p ∈ prompts, 4 ≤ (W.join outDir p.Filename).utf8ByteSize) →
        ∃ results st2, GenerateImages W st prompts outDir = some ((results, none), st2)
          ∧ results.length = prompts.length
          ∧ ∀ (i : Nat) (hi : i < prompts.length),
              ∃ before sti r, GenerateImages W st (prompts.take i) outDir = some (before, sti)
                ∧ results[i]? = some r
                ∧ (r.Success = true ↔ ItemSucceeds W outDir sti prompts[i]))
    ∧ (∀ (σ : Type) (W : World σ) (st st2 : σ) (prompts : List PromptSpec) (outDir : String)
        (results : List GenerationResult) (err : Option String),
        GenerateImages W st prompts outDir = some ((results, err), st2) →
        ∀ (i : Nat) (hi : i < prompts.length),
          ∃ before sti r, GenerateImages W st (prompts.take i) outDir = some (before, sti)
            ∧ results[i]? = some r
            ∧ (r.Success = true ↔ ItemSucceeds W outDir sti prompts[i]))
    ∧ (∀ prompts : List PromptSpec,
        ∃ results st2, GenerateImages everyThirdWorld 0 prompts "out"
            = some ((results, none), st2)
          ∧ results.length = prompts.length
          ∧ ∀ i, i < prompts.length →
              (results[i]?).map (fun r => r.Success) = some (decide ((i + 1) % 3 ≠ 0))) := by
  have hitem : ∀ (σ : Type) (W : World σ) (st st2 : σ) (prompts : List PromptSpec)
      (outDir : String) (results : List GenerationResult),
      GenerateImagesLoop W outDir prompts [] st = some (results, st2) →
      ∀ (i : Nat) (hi : i < prompts.length),
        ∃ before sti r, GenerateImages W st (prompts.take i) outDir = some (before, sti)
          ∧ results[i]? = some r
          ∧ (r.Success = true ↔ ItemSucceeds W outDir sti prompts[i]) := by
    intro σ W st st2 prompts outDir results hloop i hi
    obtain ⟨rs, sti, r, hpre, hget, _, hsucc, _, _⟩ :=
      GenerateImagesLoop_item W outDir prompts results st st2 hloop i hi
    exact ⟨(rs, none), sti, r, by simp [GenerateImages, hpre], hget, hsucc⟩
  refine ⟨?_, ?_, ?_⟩
  · intro σ W st prompts outDir hread hlen
    obtain ⟨results, st2, hloop⟩ := GenerateImagesLoop_isSome W outDir prompts [] st hread hlen
    obtain ⟨rs, hrs, hrslen⟩ :=
      GenerateImagesLoop_results W outDir prompts [] results st st2 hloop
    refine ⟨results, st2, by simp [GenerateImages, hloop], ?_,
      hitem σ W st st2 prompts outDir results hloop⟩
    rw [hrs, List.nil_append, hrslen]
  · intro σ W st st2 prompts outDir results err h
    obtain ⟨hloop, _⟩ := GenerateImages_eq_some W st st2 prompts outDir results err h
    exact hitem σ W st st2 prompts outDir results hloop
  · intro prompts
    obtain ⟨rs, hloop, hlen, hrs⟩ := everyThirdWorld_loop prompts [] 0
    refine ⟨rs, 0 + prompts.length, by simp [GenerateImages, hloop], hlen, ?_⟩
    intro i hi
    have h := hrs i hi
    rwa [Nat.zero_add] at h

/-- Witness for C5 (amended): three items against the backend that fails on every third
call; the run returns the two successes and the failure of the third item -/
theorem GenerateImages_success_iff_witness :
    GenerateImages everyThirdWorld 0 samplePrompts "out" = some ((sampleResults, none), 3)
    ∧ ∃ results st2, GenerateImages everyThirdWorld 0 samplePrompts "out"
          = some ((results, none), st2)
        ∧ results.length = samplePrompts.length
        ∧ ∀ (i : Nat) (hi : i < samplePrompts.length),
            ∃ before sti r, GenerateImages everyThirdWorld 0 (samplePrompts.take i) "out"
                = some (before, sti)
              ∧ results[i]? = some r
              ∧ (r.Success = true ↔ ItemSucceeds everyThirdWorld "out" sti samplePrompts[i]) :=
  ⟨by decide,
   GenerateImages_success_iff.1 Nat everyThirdWorld 0 samplePrompts "out"
    everyThirdWorld_readable (by decide)⟩

/-- C6 (counterexample): with an empty output directory and the one-byte file name "a", a
generation and an image write that both succeed reach `outPath[:len(outPath)-4]` with
`len(outPath) = 1`, and the run panics instead of returning a result list; so does a run
against a backend whose candidate has a nil content, inside `GenerateImage`. -/
theorem GenerateImages_short_path_panics :
    GenerateImages calmWorld ()
      [{ Theme := "ocean", Style := "sketch", Variant := 1, Prompt := "a logo", Filename := "a" }]
      "" = none
    ∧ GenerateImages blockedWorld () samplePrompts "out" = none := by
  decide

/-- C6 (amended): when every outcome of the backend is readable without a nil dereference
(an error, no candidates, or a non-nil first candidate with non-nil content and non-nil
parts up to the first one with inline data) and every prompt's image path `filepath.Join(outDir, Filename)` has at least four
bytes, `GenerateImages` returns no top-level error and a result list of the same length as
the prompt list, and the `i`-th result's `Spec` is `prompts[i]`. -/
theorem GenerateImages_returns {σ : Type} (W : World σ) (st : σ) (prompts : List PromptSpec)
    (outDir : String)
    (hread : ∀ (s : σ) (prompt : String), Readable (W.generateContent s prompt).1)
    (hlen : ∀ p ∈ prompts, 4 ≤ (W.join outDir p.Filename).utf8ByteSize) :
    ∃ results st2, GenerateImages W st prompts outDir = some ((results, none), st2)
      ∧ results.length = prompts.length
      ∧ ∀ (i : Nat) (hi : i < prompts.length),
          (results[i]?).map (fun r => r.Spec) = some prompts[i] := by
  obtain ⟨results, st2, hloop⟩ := GenerateImagesLoop_isSome W outDir prompts [] st hread hlen
  obtain ⟨rs, hrs, hrslen⟩ := GenerateImagesLoop_results W outDir prompts [] results st st2 hloop
  refine ⟨results, st2, by simp [GenerateImages, hloop], ?_, ?_⟩
  · rw [hrs, List.nil_append, hrslen]
  · intro i hi
    obtain ⟨_, _, r, _, hget, hspec, _⟩ :=
      GenerateImagesLoop_item W outDir prompts results st st2 hloop i hi
    rw [hget, Option.map_some', hspec]

/-- Witness for C6 (amended): three prompts written under "out" -/
theorem GenerateImages_returns_witness :
    ∃ results st2, GenerateImages calmWorld () samplePrompts "out" = some ((results, none), st2)
      ∧ results.length = samplePrompts.length
      ∧ ∀ (i : Nat) (hi : i < samplePrompts.length),
          (results[i]?).map (fun r => r.Spec) = some samplePrompts[i] :=
  GenerateImages_returns calmWorld () samplePrompts "out" calmWorld_readable (by decide)

/-- C7: every result that `GenerateImages` returns has exactly one of `Error` and `FilePath`
populated: `Error` is non-empty exactly when `Success` is false, and `FilePath` is non-empty
exactly when `Success` is true. -/
theorem GenerateImages_error_xor_filePath {σ : Type} (W : World σ) (st st2 : σ)
    (prompts : List PromptSpec) (outDir : String) (results : List GenerationResult)
    (err : Option String)
    (h : GenerateImages W st prompts outDir = some ((results, err), st2))
    (r : GenerationResult) (hr : r ∈ results) :
    (r.Error ≠ "" ↔ r.Success = false) ∧ (r.FilePath ≠ "" ↔ r.Success = true)
      ∧ ((r.Error ≠ "" ∧ r.FilePath = "") ∨ (r.Error = "" ∧ r.FilePath ≠ "")) := by
  obtain ⟨hloop, _⟩ := GenerateImages_eq_some W st st2 prompts outDir results err h
  obtain ⟨rs, hrs, hrslen⟩ := GenerateImagesLoop_results W outDir prompts [] results st st2 hloop
  obtain ⟨i, hi, hget⟩ := List.getElem_of_mem hr
  have hi2 : i < prompts.length := by
    rw [← hrslen]
    simpa [hrs] using hi
  obtain ⟨_, _, r2, _, hget2, _, _, herr, hpath⟩ :=
    GenerateImagesLoop_item W outDir prompts results st st2 hloop i hi2
  have hr2 : r2 = r := by
    rw [List.getElem?_eq_getElem hi, hget] at hget2
    exact (Option.some.inj hget2).symm
  subst hr2
  refine ⟨herr, hpath, ?_⟩
  cases hs : r2.Success with
  | false =>
    left
    refine ⟨herr.mpr hs, ?_⟩
    by_contra hne
    have := hpath.mp hne
    rw [hs] at this
    exact absurd this (by decide)
  | true =>
    right
    refine ⟨?_, hpath.mpr hs⟩
    by_contra hne
    have := herr.mp hne
    rw [hs] at this
    exact absurd this (by decide)

/-- Witness for C7: the failed third item of a run against the every-third backend -/
theorem GenerateImages_error_xor_filePath_witness :
    GenerateImages everyThirdWorld 0 samplePrompts "out" = some ((sampleResults, none), 3)
    ∧ sampleFailure ∈ sampleResults
    ∧ (sampleFailure.Error ≠ "" ↔ sampleFailure.Success = false)
    ∧ (sampleFailure.FilePath ≠ "" ↔ sampleFailure.Success = true)
    ∧ ((sampleFailure.Error ≠ "" ∧ sampleFailure.FilePath = "")
        ∨ (sampleFailure.Error = "" ∧ sampleFailure.FilePath ≠ "")) :=
  ⟨by decide, by decide,
   GenerateImages_error_xor_filePath everyThirdWorld 0 3 samplePrompts "out" sampleResults
    none (by decide) sampleFailure (by decide)⟩

/-! ## The style filter -/

theorem requestMap_foldl (requested : List String) (key : String) :
    ∀ (m : RequestMap),
      requested.foldl
        (fun (requestMap : RequestMap) s => fun key => if key = s then true else requestMap key)
        m key = (decide (key ∈ requested) || m key) := by
  induction requested with
  | nil => intro m; simp
  | cons s rest ih =>
    intro m
    rw [List.foldl_cons, ih]
    by_cases hk : key = s
    · simp [hk]
    · simp [hk]

theorem foldl_filter_append (p : String → Bool) :
    ∀ (available acc : List String),
      available.foldl (fun filtered s => if p s then filtered ++ [s] else filtered) acc
        = acc ++ available.filter p := by
  intro available
  induction available with
  | nil => intro acc; simp
  | cons s rest ih =>
    intro acc
    rw [List.foldl_cons, ih]
    by_cases hp : p s = true
    · simp [hp, List.filter_cons]
    · simp [hp, List.filter_cons]

theorem filterStyles_eq_filter (available requested : List String) :
    filterStyles available requested
      = available.filter (fun s => decide (s ∈ requested)) := by
  unfold filterStyles
  simp only [foldl_filter_append, List.nil_append]
  apply List.filter_congr
  intro s _
  rw [requestMap_foldl]
  simp

/-- C11: `filterStyles(available, requested)` is the list of the elements of `available`
that occur in `requested`, in the order and with the multiplicity they have in `available`;
reordering `requested`, or replacing it by any list with the same elements, does not change
the result. -/
theorem filterStyles_spec (available requested : List String) :
    filterStyles available requested
        = available.filter (fun s => decide (s ∈ requested))
    ∧ (∀ requested2 : List String, requested2.Perm requested →
        filterStyles available requested2 = filterStyles available requested)
    ∧ (∀ requested2 : List String, (∀ s, s ∈ requested2 ↔ s ∈ requested) →
        filterStyles available requested2 = filterStyles available requested) := by
  have hmem : ∀ requested2 : List String, (∀ s, s ∈ requested2 ↔ s ∈ requested) →
      filterStyles available requested2 = filterStyles available requested := by
    intro requested2 h
    rw [filterStyles_eq_filter, filterStyles_eq_filter]
    apply List.filter_congr
    intro s _
    simp [h s]
  exact ⟨filterStyles_eq_filter available requested,
    fun requested2 hperm => hmem requested2 (fun s => hperm.mem_iff), hmem⟩

/-- Witness for C11: the request lists "neon-glow", "flat-minimal" and its reversal select
the same styles, in the order of the project -/
theorem filterStyles_spec_witness :
    filterStyles ["flat-minimal", "sketch", "neon-glow", "flat-minimal"]
        ["neon-glow", "flat-minimal"]
      = ["flat-minimal", "neon-glow", "flat-minimal"]
    ∧ filterStyles ["flat-minimal", "sketch", "neon-glow", "flat-minimal"]
        ["flat-minimal", "neon-glow"]
      = filterStyles ["flat-minimal", "sketch", "neon-glow", "flat-minimal"]
        ["neon-glow", "flat-minimal"] :=
  ⟨((filterStyles_spec ["flat-minimal", "sketch", "neon-glow", "flat-minimal"]
      ["neon-glow", "flat-minimal"]).1).trans (by decide),
   (filterStyles_spec ["flat-minimal", "sketch", "neon-glow", "flat-minimal"]
      ["neon-glow", "flat-minimal"]).2.1 ["flat-minimal", "neon-glow"]
      (List.Perm.swap "neon-glow" "flat-minimal" [])⟩

/-! ## Normalisation applied twice -/

/-- The ASCII case mapping is idempotent -/
theorem charToLower_idempotent (c : Char) : c.toLower.toLower = c.toLower := by
  unfold Char.toLower
  by_cases h : c.toNat ≥ 65 ∧ c.toNat ≤ 90
  · simp only [h, and_self, if_true]
    obtain ⟨h1, h2⟩ := h
    generalize c.toNat = n at h1 h2
    interval_cases n <;> decide
  · simp [h]

theorem normalizeName_idempotent (lower : Char → Char) (hdash : lower '-' = '-')
    (hidem : ∀ c : Char, lower (lower c) = lower c) (s : String) :
    normalizeName lower (normalizeName lower s) = normalizeName lower s := by
  simp only [normalizeName, List.map_map]
  congr 1
  apply List.map_congr_left
  intro c _
  simp only [Function.comp]
  by_cases h : lower c = ' ' ∨ lower c = '_'
  · simp only [h, if_true, hdash]
    decide
  · simp only [h, if_false, hidem]

/-- C12: the normalisation used by `buildFilename` is idempotent,
`sanitizeName(sanitizeName(s)) = sanitizeName(s)` for every string `s`, and hence
`buildFilename(sanitizeName(theme), sanitizeName(style), variant)` is
`buildFilename(theme, style, variant)`. Here `lower` has the two properties of
`unicode.ToLower` that are used: it leaves the hyphen unchanged and is idempotent. -/
theorem sanitizeName_idempotent (lower : Char → Char) (hdash : lower '-' = '-')
    (hidem : ∀ c : Char, lower (lower c) = lower c) :
    (∀ s : String, sanitizeName lower (sanitizeName lower s) = sanitizeName lower s)
    ∧ (∀ (theme style : String) (variant : Int),
        buildFilename lower (sanitizeName lower theme) (sanitizeName lower style) variant
          = buildFilename lower theme style variant) := by
  have h : ∀ s : String,
      sanitizeName lower (sanitizeName lower s) = sanitizeName lower s := by
    intro s
    rw [sanitizeName_eq_normalizeName, sanitizeName_eq_normalizeName,
      normalizeName_idempotent lower hdash hidem]
  refine ⟨h, fun theme style variant => ?_⟩
  unfold buildFilename
  simp only [h]

/-- Witness for C12 with the ASCII case mapping -/
theorem sanitizeName_idempotent_witness :
    Char.toLower '-' = '-'
    ∧ sanitizeName Char.toLower (sanitizeName Char.toLower "Deep Sea_Blue")
        = sanitizeName Char.toLower "Deep Sea_Blue"
    ∧ buildFilename Char.toLower (sanitizeName Char.toLower "Deep Sea")
        (sanitizeName Char.toLower "hand_drawn") 12
        = buildFilename Char.toLower "Deep Sea" "hand_drawn" 12 :=
  ⟨by decide,
   (sanitizeName_idempotent Char.toLower (by decide) charToLower_idempotent).1 "Deep Sea_Blue",
   (sanitizeName_idempotent Char.toLower (by decide) charToLower_idempotent).2
      "Deep Sea" "hand_drawn" 12⟩

/-! ## The metadata sidecar path -/

theorem takeBytes_append (b : List Char) (k : Nat) :
    ∀ a : List Char, takeBytes (String.utf8Len a + k) (a ++ b) = a ++ takeBytes k b := by
  intro a
  induction a with
  | nil => simp
  | cons c cs ih =>
    have hle : c.utf8Size ≤ String.utf8Len (c :: cs) + k := by
      rw [String.utf8Len_cons]; omega
    have hsub : String.utf8Len (c :: cs) + k - c.utf8Size = String.utf8Len cs + k := by
      rw [String.utf8Len_cons]; omega
    rw [List.cons_append, takeBytes, if_pos hle, hsub, ih, List.cons_append]

/-- Cutting the last four bytes off a path that ends in ".png" is in range and leaves the
path without that extension -/
theorem sliceTo_png (stem : String) :
    sliceTo (stem ++ ".png") (((stem ++ ".png").utf8ByteSize : Int) - 4) = some stem := by
  have hsize : (stem ++ ".png").utf8ByteSize = stem.utf8ByteSize + 4 := by
    rw [utf8ByteSize_append]
    rfl
  unfold sliceTo
  rw [if_neg (by omega), hsize]
  have hn : (((stem.utf8ByteSize + 4 : Nat) : Int) - 4).toNat = String.utf8Len stem.data + 0 := by
    have : stem.utf8ByteSize = String.utf8Len stem.data := rfl
    omega
  rw [hn, String.data_append, takeBytes_append]
  have ht : takeBytes 0 ".png".data = [] := by decide
  rw [ht, List.append_nil]

theorem hasSuffix_iff (s suffix : String) :
    HasSuffix s suffix ↔ ∃ stem : String, s = stem ++ suffix := by
  constructor
  · rintro ⟨t, ht⟩
    exact ⟨⟨t⟩, String.ext (by rw [String.data_append, ht])⟩
  · rintro ⟨stem, rfl⟩
    unfold HasSuffix
    rw [String.data_append]
    exact List.suffix_append _ _

theorem buildFilename_hasSuffix (lower : Char → Char) (theme style : String)
    (variant : Int) : HasSuffix (buildFilename lower theme style variant) ".png" :=
  (hasSuffix_iff _ _).mpr ⟨_, rfl⟩

theorem GeneratePrompts_filename (lower : Char → Char) (proj : Project)
    (styles : List String) (n : Int) (spec : PromptSpec)
    (hspec : spec ∈ GeneratePrompts lower proj styles n) :
    spec.Filename = buildFilename lower spec.Theme spec.Style spec.Variant := by
  rw [GeneratePrompts_eq_flatMap] at hspec
  simp only [List.mem_flatMap, List.mem_map] at hspec
  obtain ⟨theme, _, style, _, v, _, rfl⟩ := hspec
  rfl

/-- The loop body on an item whose generation and image write succeed and whose image path
ends in ".png": the metadata is written to the path with ".json" in place of ".png" -/
theorem generateStep_sidecar {σ : Type} (W : World σ) (outDir : String)
    (results : List GenerationResult) (st st1 st2 : σ) (spec : PromptSpec) (data : Bytes)
    (stem : String) (hpath : W.join outDir spec.Filename = stem ++ ".png")
    (hgen : GenerateImage W st spec.Prompt = some (Except.ok data, st1))
    (hwrite : W.writeFile st1 (W.join outDir spec.Filename) data = (none, st2)) :
    generateStep W outDir results st spec
      = some (results ++ [{ Spec := spec, Success := true, Error := "",
                            FilePath := W.join outDir spec.Filename }],
          (W.writeFile st2 (stem ++ ".json")
            (W.marshalIndent spec.Prompt spec.Theme spec.Style spec.Variant)).2) := by
  have hslice := sliceTo_png stem
  rw [← hpath] at hslice
  unfold generateStep
  simp only [hgen, hwrite, hslice]

/-- In `calmWorld` the joined path keeps the extension of the file name -/
theorem calmWorld_join_hasSuffix (name : String) (h : HasSuffix name ".png") :
    HasSuffix (calmWorld.join "out" name) ".png" := by
  have hj : calmWorld.join "out" name = "out" ++ "/" ++ name := rfl
  obtain ⟨stem, rfl⟩ := (hasSuffix_iff _ _).mp h
  rw [hj, ← String.append_assoc]
  exact (hasSuffix_iff _ _).mpr ⟨_, rfl⟩

/-- C13: for every spec produced by `GeneratePrompts` and every output directory, the file
name has at least four bytes and ends in ".png"; so does the image path, `filepath.Join`
keeping the extension of the file name. Cutting the last four bytes of the image path is
therefore in range and removes exactly ".png", and the metadata is written to the image path
with ".json" in place of ".png". -/
theorem GenerateImages_sidecar_path (lower : Char → Char) (proj : Project)
    (styles : List String) (n : Int) (spec : PromptSpec)
    (hspec : spec ∈ GeneratePrompts lower proj styles n)
    {σ : Type} (W : World σ) (outDir : String)
    (hjoin : ∀ name : String, HasSuffix name ".png" → HasSuffix (W.join outDir name) ".png") :
    4 ≤ spec.Filename.utf8ByteSize ∧ HasSuffix spec.Filename ".png"
    ∧ ∃ stem : String, W.join outDir spec.Filename = stem ++ ".png"
        ∧ 4 ≤ (W.join outDir spec.Filename).utf8ByteSize
        ∧ sliceTo (W.join outDir spec.Filename)
            (((W.join outDir spec.Filename).utf8ByteSize : Int) - 4) = some stem
        ∧ ∀ (results : List GenerationResult) (st st1 st2 : σ) (data : Bytes),
            GenerateImage W st spec.Prompt = some (Except.ok data, st1) →
            W.writeFile st1 (W.join outDir spec.Filename) data = (none, st2) →
            generateStep W outDir results st spec
              = some (results ++ [{ Spec := spec, Success := true, Error := "",
                                    FilePath := W.join outDir spec.Filename }],
                  (W.writeFile st2 (stem ++ ".json")
                    (W.marshalIndent spec.Prompt spec.Theme spec.Style spec.Variant)).2) := by
  have hname : HasSuffix spec.Filename ".png" := by
    rw [GeneratePrompts_filename lower proj styles n spec hspec]
    exact buildFilename_hasSuffix lower _ _ _
  have hsize : ∀ s : String, HasSuffix s ".png" → 4 ≤ s.utf8ByteSize := by
    intro s hs
    obtain ⟨t, rfl⟩ := (hasSuffix_iff _ _).mp hs
    rw [utf8ByteSize_append]
    have h4 : (".png" : String).utf8ByteSize = 4 := by decide
    omega
  obtain ⟨stem, hstem⟩ := (hasSuffix_iff _ _).mp (hjoin spec.Filename hname)
  refine ⟨hsize _ hname, hname, stem, hstem, hsize _ (hjoin spec.Filename hname), ?_, ?_⟩
  · rw [hstem]
    exact sliceTo_png stem
  · intro results st st1 st2 data hgen hwrite
    exact generateStep_sidecar W outDir results st st1 st2 spec data stem hstem hgen hwrite

theorem acme_spec_mem (lower : Char → Char) :
    promptSpecFor lower acme "ocean" "flat-minimal" 1
      ∈ GeneratePrompts lower acme ["flat-minimal"] 1 := by
  show _ ∈ GeneratePrompts lower acme acme.Styles 1
  rw [GeneratePrompts_acme]
  exact List.mem_singleton.mpr rfl

/-- Witness for C13: the spec of the project "acme" written under "out" -/
theorem GenerateImages_sidecar_path_witness :
    promptSpecFor Char.toLower acme "ocean" "flat-minimal" 1
        ∈ GeneratePrompts Char.toLower acme ["flat-minimal"] 1
    ∧ calmWorld.join "out" (promptSpecFor Char.toLower acme "ocean" "flat-minimal" 1).Filename
        = "out/ocean-flat-minimal-1" ++ ".png"
    ∧ sliceTo "out/ocean-flat-minimal-1.png" 24 = some "out/ocean-flat-minimal-1"
    ∧ 4 ≤ (promptSpecFor Char.toLower acme "ocean" "flat-minimal" 1).Filename.utf8ByteSize
    ∧ HasSuffix (promptSpecFor Char.toLower acme "ocean" "flat-minimal" 1).Filename ".png" :=
  ⟨acme_spec_mem Char.toLower,
   by decide, by decide,
   (GenerateImages_sidecar_path Char.toLower acme ["flat-minimal"] 1
      (promptSpecFor Char.toLower acme "ocean" "flat-minimal" 1)
      (acme_spec_mem Char.toLower)
      calmWorld "out" calmWorld_join_hasSuffix).1,
   (GenerateImages_sidecar_path Char.toLower acme ["flat-minimal"] 1
      (promptSpecFor Char.toLower acme "ocean" "flat-minimal" 1)
      (acme_spec_mem Char.toLower)
      calmWorld "out" calmWorld_join_hasSuffix).2.1⟩

end Beautifi
